import Mathlib

/-!
Verification of the numerical core of the double-pendulum notebook
(`src/Double_Pendulum_Numerical_Analysis.ipynb`).

The embedding is a shallow one over an arbitrary linear ordered field `α`:
the numpy trigonometric functions are passed as explicit function
parameters (`sine`, `cosine`), so every definition below is computable and
can be instantiated both at `ℚ` (for concrete evaluation) and at `ℝ` with
`Real.sin`, `Real.cos` (for statements about the actual real-valued
formulas).  Python lists become `List α`; an indexing access `v[i]`
becomes `List.getD v i 0` (out-of-range access raises in Python; the
hypotheses of the theorems keep all relevant accesses in bounds, and one
theorem below proves default-independence of the accesses of
`find_vertical`).  `scipy.integrate.odeint` is external library code, not
part of this repository, so it is modelled as an opaque function parameter
of the sweep drivers (type `Odeint α`).  All matplotlib work (figures,
axes, labels, the level-curve scatter lists of `p_w_plot`) is presentation
and is omitted: it writes only to plotting state and never feeds back into
the numeric lists the claims are about.
-/

section Defs

variable {α : Type} [LinearOrderedField α]

/-- Embedding of `dp_rhs(v, t, p)` from the notebook: the exact
right-hand side of the double pendulum ODE system, transliterated term by
term, including the literal subterm `l1*w1*w1*2*sin(p1-p2)` of `w2_dot`
(note the factor `2`).  Source:

    p1, w1, p2, w2 = v
    m1, m2, l1, l2, g = p
    w1_dot = (-(m1+m2)*g*sin(p1)-m2*l2*w2*w2*sin(p1-p2)
              -m2*cos(p1-p2)*l1*w1*w1*sin(p1-p2)+m2*g*cos(p1-p2)*sin(p2))
             /((m1+m2)*l1-m2*l1*(cos(p1-p2)*cos(p1-p2)))
    w2_dot = (l1*w1*w1*2*sin(p1-p2)-g*sin(p2)-l1*w1_dot*cos(p1-p2))/l2
    f = [w1,w1_dot,w2,w2_dot]
-/
def dp_rhs (sine cosine : α → α) (v : List α) (t : α) (p : List α) : List α :=
  let p1 := v.getD 0 0
  let w1 := v.getD 1 0
  let p2 := v.getD 2 0
  let w2 := v.getD 3 0
  let m1 := p.getD 0 0
  let m2 := p.getD 1 0
  let l1 := p.getD 2 0
  let l2 := p.getD 3 0
  let g := p.getD 4 0
  let w1_dot :=
    (-(m1 + m2) * g * sine p1 - m2 * l2 * w2 * w2 * sine (p1 - p2)
        - m2 * cosine (p1 - p2) * l1 * w1 * w1 * sine (p1 - p2)
        + m2 * g * cosine (p1 - p2) * sine p2) /
      ((m1 + m2) * l1 - m2 * l1 * (cosine (p1 - p2) * cosine (p1 - p2)))
  let w2_dot :=
    (l1 * w1 * w1 * 2 * sine (p1 - p2) - g * sine p2
        - l1 * w1_dot * cosine (p1 - p2)) / l2
  [w1, w1_dot, w2, w2_dot]

/-- Embedding of `sa_dp_rhs(v, t, p)` from the notebook: the small-angle
right-hand side.  Source:

    w1_dot = (g*l1)*(m2*p2-(m1+m2)*p1)/(m1*l1*l1)
    w2_dot = -(g*p2+l1*w1_dot)/l2
    f = [w1,w1_dot,w2,w2_dot]
-/
def sa_dp_rhs (v : List α) (t : α) (p : List α) : List α :=
  let p1 := v.getD 0 0
  let w1 := v.getD 1 0
  let p2 := v.getD 2 0
  let w2 := v.getD 3 0
  let m1 := p.getD 0 0
  let m2 := p.getD 1 0
  let l1 := p.getD 2 0
  let l2 := p.getD 3 0
  let g := p.getD 4 0
  let w1_dot := (g * l1) * (m2 * p2 - (m1 + m2) * p1) / (m1 * l1 * l1)
  let w2_dot := -(g * p2 + l1 * w1_dot) / l2
  [w1, w1_dot, w2, w2_dot]

/-- Modelled from the spec: the first-order linearization of the exact
right-hand side `dp_rhs` at the origin, obtained (as the spec prescribes)
by replacing `sin(x)` by `x` and `cos(x)` by `1` in `dp_rhs` and dropping
the terms quadratic in the angular velocities `w1`, `w2` (the
`m2*l2*w2*w2*...` and `...*w1*w1*...` summands).  This definition follows
the spec wording and is compared against the source-derived `sa_dp_rhs`. -/
def lin_dp_rhs (v : List α) (t : α) (p : List α) : List α :=
  let p1 := v.getD 0 0
  let w1 := v.getD 1 0
  let p2 := v.getD 2 0
  let w2 := v.getD 3 0
  let m1 := p.getD 0 0
  let m2 := p.getD 1 0
  let l1 := p.getD 2 0
  let l2 := p.getD 3 0
  let g := p.getD 4 0
  let w1_dot :=
    (-(m1 + m2) * g * p1 + m2 * g * p2) / ((m1 + m2) * l1 - m2 * l1 * (1 * 1))
  let w2_dot := (-(g * p2) - l1 * w1_dot * 1) / l2
  [w1, w1_dot, w2, w2_dot]

/-- Loop body of `find_vertical`: given the deviation `dev i` of sample `i`,
update the running pair `(closest, closest_index)` exactly as the source
does (`if x < closest: closest = x; closest_index = i`). -/
def fvStep (dev : Nat → α) (acc : α × Option Nat) (i : Nat) : α × Option Nat :=
  if dev i < acc.1 then (dev i, some i) else acc

/-- The `for i in range(n)` loop of `find_vertical`, starting from the
source's initial accumulator `closest = 999`, `closest_index = None`. -/
def fvLoop (dev : Nat → α) (n : Nat) : α × Option Nat :=
  (List.range n).foldl (fvStep dev) (999, none)

/-- The quantity `abs(l1*sin(p1[i])+l2*sin(p2[i]))` computed by the loop
body of `find_vertical`.  The parameter `d` is the junk default of the
(in Python partial) list accesses `p1[i]`, `p2[i]`; `find_vertical` uses
`d = 0`, and a theorem below shows the result is independent of `d` when
the accesses are in bounds. -/
def deviation (sine : α → α) (l1 l2 d : α) (p1 p2 : List α) (i : Nat) : α :=
  |l1 * sine (p1.getD i d) + l2 * sine (p2.getD i d)|

/-- Embedding of `find_vertical(l1, l2, p1, p2)` from the notebook:

    closest = 999
    closest_index = None
    for i in range(len(p1)):
        x = abs(l1*sin(p1[i])+l2*sin(p2[i]))
        if x < closest:
            closest = x
            closest_index = i
    return closest_index
-/
def find_vertical (sine : α → α) (l1 l2 : α) (p1 p2 : List α) : Option Nat :=
  (fvLoop (deviation sine l1 l2 0 p1 p2) p1.length).2

/-- Embedding of `numpy.linspace(a, b, n)`: `n` evenly spaced samples from
`a` to `b`, endpoints included (`[a]` for `n = 1`, `[]` for `n = 0`). -/
def linspace (a b : α) (n : Nat) : List α :=
  if n ≤ 1 then (List.range n).map (fun _ => a)
  else (List.range n).map (fun i => a + (b - a) * (i : α) / ((n - 1 : Nat) : α))

/-- Signature of a right-hand-side function as passed to `odeint`:
arguments `(v, t, p)`. -/
abbrev RhsFn (α : Type) := List α → α → List α → List α

/-- Opaque model of `scipy.integrate.odeint(rhs, ic, t, args=(p,),
atol, rtol)`: external library code, not part of this repository, returning
a trajectory (one state row per requested time). -/
abbrev Odeint (α : Type) := RhsFn α → List α → List α → List α → α → α → List (List α)

/-- The module-level variables of the notebook that the sweep drivers read
(they are plain globals in the source): the initial velocities `w1`, `w2`,
the parameter vector `p = [m1, m2, l1, l2, g]`, the default initial
condition `IC`, the time grid `t_interval`, the default lengths `l1`, `l2`,
and the integrator tolerances `abserr`, `relerr`. -/
structure Env (α : Type) where
  w1 : α
  w2 : α
  p : List α
  IC : List α
  t_interval : List α
  l1 : α
  l2 : α
  abserr : α
  relerr : α

/-- Column extraction `v_sol[:, j]` from a trajectory. -/
def col (j : Nat) (sol : List (List α)) : List α :=
  sol.map (fun row => row.getD j 0)

/-- The parameter vector passed to the solver by `length_plot` at grid
value `l`: the copy of the global `p` with entry 2 (`l1`) or 3 (`l2`)
replaced. -/
def lpParams (env : Env α) (plot_l1 : Bool) (l : α) : List α :=
  if plot_l1 then env.p.set 2 l else env.p.set 3 l

/-- The trajectory computed by `length_plot` at grid value `l`. -/
def lpSol (O : Odeint α) (env : Env α) (rhs : RhsFn α) (plot_l1 : Bool) (l : α) :
    List (List α) :=
  O rhs env.IC env.t_interval (lpParams env plot_l1 l) env.abserr env.relerr

/-- The crossing index located by `length_plot` at grid value `l`
(`find_vertical(l, l2, ...)` or `find_vertical(l1, l, ...)`, with the other
length read from the globals). -/
def lpTIndex (O : Odeint α) (sine : α → α) (env : Env α) (rhs : RhsFn α)
    (plot_l1 : Bool) (l : α) : Option Nat :=
  if plot_l1 then
    find_vertical sine l env.l2 (col 0 (lpSol O env rhs plot_l1 l))
      (col 2 (lpSol O env rhs plot_l1 l))
  else
    find_vertical sine env.l1 l (col 0 (lpSol O env rhs plot_l1 l))
      (col 2 (lpSol O env rhs plot_l1 l))

/-- The observable `-w2_arr[t_index]` appended by `length_plot` at grid
value `l` (in Python a `None` index raises; the embedding totalizes the
access with a default that the theorems never rely on). -/
def lpObs (O : Odeint α) (sine : α → α) (env : Env α) (rhs : RhsFn α)
    (plot_l1 : Bool) (l : α) : α :=
  -((col 3 (lpSol O env rhs plot_l1 l)).getD ((lpTIndex O sine env rhs plot_l1 l).getD 0) 0)

/-- Loop body of `length_plot`: the accumulator carries the mutable copy
`p_l` (created once by `p.copy()` before the loop and assigned at index 2
or 3 on every iteration) and the growing `w2_list`. -/
def lpStep (O : Odeint α) (sine : α → α) (env : Env α) (rhs : RhsFn α)
    (plot_l1 : Bool) (acc : List α × List α) (l : α) : List α × List α :=
  let p_l := if plot_l1 then acc.1.set 2 l else acc.1.set 3 l
  let v_sol := O rhs env.IC env.t_interval p_l env.abserr env.relerr
  let t_index :=
    if plot_l1 then find_vertical sine l env.l2 (col 0 v_sol) (col 2 v_sol)
    else find_vertical sine env.l1 l (col 0 v_sol) (col 2 v_sol)
  (p_l, acc.2 ++ [-((col 3 v_sol).getD (t_index.getD 0) 0)])

/-- Embedding of `length_plot(rhs, plot_l1, n, l_max)` from the notebook
(without the matplotlib calls): sweeps `l` over `linspace(0.25, l_max, n)`,
substitutes it into a copy of the global parameter vector, integrates,
locates the vertical crossing and appends `-w2_arr[t_index]`; returns the
grid and the collected `w2_list`. -/
def length_plot (O : Odeint α) (sine : α → α) (env : Env α) (rhs : RhsFn α)
    (plot_l1 : Bool) (n : Nat) (l_max : α) : List α × List α :=
  let l_arr := linspace (1 / 4) l_max n
  (l_arr, (l_arr.foldl (lpStep O sine env rhs plot_l1) (env.p, [])).2)

/-- The parameter vector passed to the solver by `mass_plot` at grid value
`m`: the copy of the global `p` with entry 0 (`m1`) or 1 (`m2`) replaced. -/
def mpParams (env : Env α) (plot_m1 : Bool) (m : α) : List α :=
  if plot_m1 then env.p.set 0 m else env.p.set 1 m

/-- The trajectory computed by `mass_plot` at grid value `m`. -/
def mpSol (O : Odeint α) (env : Env α) (rhs : RhsFn α) (plot_m1 : Bool) (m : α) :
    List (List α) :=
  O rhs env.IC env.t_interval (mpParams env plot_m1 m) env.abserr env.relerr

/-- The crossing index located by `mass_plot` at grid value `m` (both
lengths are read from the globals). -/
def mpTIndex (O : Odeint α) (sine : α → α) (env : Env α) (rhs : RhsFn α)
    (plot_m1 : Bool) (m : α) : Option Nat :=
  find_vertical sine env.l1 env.l2 (col 0 (mpSol O env rhs plot_m1 m))
    (col 2 (mpSol O env rhs plot_m1 m))

/-- The observable `-w2_arr[t_index]` appended by `mass_plot` at grid
value `m`. -/
def mpObs (O : Odeint α) (sine : α → α) (env : Env α) (rhs : RhsFn α)
    (plot_m1 : Bool) (m : α) : α :=
  -((col 3 (mpSol O env rhs plot_m1 m)).getD ((mpTIndex O sine env rhs plot_m1 m).getD 0) 0)

/-- Loop body of `mass_plot`, mirroring `lpStep` with the mass indices. -/
def mpStep (O : Odeint α) (sine : α → α) (env : Env α) (rhs : RhsFn α)
    (plot_m1 : Bool) (acc : List α × List α) (m : α) : List α × List α :=
  let p_m := if plot_m1 then acc.1.set 0 m else acc.1.set 1 m
  let v_sol := O rhs env.IC env.t_interval p_m env.abserr env.relerr
  let t_index := find_vertical sine env.l1 env.l2 (col 0 v_sol) (col 2 v_sol)
  (p_m, acc.2 ++ [-((col 3 v_sol).getD (t_index.getD 0) 0)])

/-- Embedding of `mass_plot(rhs, plot_m1, n, m_max)` from the notebook
(without the matplotlib calls). -/
def mass_plot (O : Odeint α) (sine : α → α) (env : Env α) (rhs : RhsFn α)
    (plot_m1 : Bool) (n : Nat) (m_max : α) : List α × List α :=
  let m_arr := linspace (1 / 4) m_max n
  (m_arr, (m_arr.foldl (mpStep O sine env rhs plot_m1) (env.p, [])).2)

/-- The trajectory computed by `p_w_plot` at the grid point `(p1, p2)`:
the initial condition is `[p1, w1, p2, w2]` with the velocities read from
the globals. -/
def pwSol (O : Odeint α) (env : Env α) (rhs : RhsFn α) (q p2 : α) :
    List (List α) :=
  O rhs [q, env.w1, p2, env.w2] env.t_interval env.p env.abserr env.relerr

/-- The crossing index located by `p_w_plot` at the grid point `(p1, p2)`. -/
def pwTIndex (O : Odeint α) (sine : α → α) (env : Env α) (rhs : RhsFn α)
    (q p2 : α) : Option Nat :=
  find_vertical sine env.l1 env.l2 (col 0 (pwSol O env rhs q p2))
    (col 2 (pwSol O env rhs q p2))

/-- The observable `w2_at_vertical = -w2_arr[t_index]` computed by
`p_w_plot` at the grid point `(p1, p2)`. -/
def pwObs (O : Odeint α) (sine : α → α) (env : Env α) (rhs : RhsFn α)
    (q p2 : α) : α :=
  -((col 3 (pwSol O env rhs q p2)).getD ((pwTIndex O sine env rhs q p2).getD 0) 0)

/-- The numeric accumulation state of `p_w_plot`: the three flat lists
grown at every inner iteration and the four per-row extremum lists (the
level-curve scatter lists are plotting-only and omitted). -/
structure PW (α : Type) where
  p1_list : List α
  p2_list : List α
  w2_list : List α
  max_p2_list : List α
  max_w2_list : List α
  min_p2_list : List α
  min_w2_list : List α

/-- The empty initial accumulation state of `p_w_plot`. -/
def emptyPW : PW α := ⟨[], [], [], [], [], [], []⟩

/-- Embedding of Python's `list.index(x)`: the index of the first element
equal to `x` (`none` where Python raises `ValueError`). -/
def idxOf? (x : α) : List α → Option Nat
  | [] => none
  | y :: l => if y = x then some 0 else (idxOf? x l).map (fun j => j + 1)

/-- Inner-loop body of `p_w_plot`: for one `p2`, compute the observable,
update the running row maximum and minimum (`if w2_at_vertical > max_w...`,
`if w2_at_vertical < min_w...`), and append to the flat lists. -/
def pwStep (obs2 : α → α → α) (q : α) (acc : PW α × α × α) (p2 : α) :
    PW α × α × α :=
  let st := acc.1
  let mx := acc.2.1
  let mn := acc.2.2
  let w := obs2 q p2
  ({ st with
      p1_list := st.p1_list ++ [q],
      p2_list := st.p2_list ++ [p2],
      w2_list := st.w2_list ++ [w] },
    if mx < w then w else mx,
    if w < mn then w else mn)

/-- One outer-loop iteration of `p_w_plot` for the first angle `q`: run the
inner loop over `iter_p2` with the row accumulators initialized to `0`
(maximum) and `9999` (minimum), then append the row records, locating each
extremum's companion `p2` via `p2_list[w2_list.index(extremum)]` — a lookup
into the GLOBAL accumulated lists, exactly as the source does. -/
def pwRow (obs2 : α → α → α) (iter_p2 : List α) (st : PW α) (q : α) : PW α :=
  let r := iter_p2.foldl (pwStep obs2 q) (st, 0, 9999)
  let st1 := r.1
  let mx := r.2.1
  let mn := r.2.2
  { st1 with
      max_w2_list := st1.max_w2_list ++ [mx],
      max_p2_list := st1.max_p2_list
        ++ [st1.p2_list.getD ((idxOf? mx st1.w2_list).getD 0) 0],
      min_w2_list := st1.min_w2_list ++ [mn],
      min_p2_list := st1.min_p2_list
        ++ [st1.p2_list.getD ((idxOf? mn st1.w2_list).getD 0) 0] }

/-- The nested accumulation loops of `p_w_plot` over the two angle grids. -/
def pwLoop (obs2 : α → α → α) (iter_p1 iter_p2 : List α) : PW α :=
  iter_p1.foldl (pwRow obs2 iter_p2) emptyPW

/-- Embedding of `p_w_plot(rhs, iter_n, angle_start, angle_end)` from the
notebook (without the matplotlib calls and the plotting-only level-curve
lists): both angle grids are `linspace(angle_start, angle_end, iter_n)`,
and for every `(p1, p2)` pair the observable is `pwObs`. -/
def p_w_plot (O : Odeint α) (sine : α → α) (env : Env α) (rhs : RhsFn α)
    (iter_n : Nat) (angle_start angle_end : α) : PW α :=
  pwLoop (pwObs O sine env rhs) (linspace angle_start angle_end iter_n)
    (linspace angle_start angle_end iter_n)

/-- The running-maximum fold of the `p_w_plot` inner loop. -/
def foldMax (l : List α) (a : α) : α :=
  l.foldl (fun mx w => if mx < w then w else mx) a

/-- The running-minimum fold of the `p_w_plot` inner loop. -/
def foldMin (l : List α) (b : α) : α :=
  l.foldl (fun mn w => if w < mn then w else mn) b

/-- The observables of one `p_w_plot` row: the inner grid mapped through
the observable at the row's first angle. -/
def rowVals (obs2 : α → α → α) (iter_p2 : List α) (q : α) : List α :=
  iter_p2.map (obs2 q)

/-- The flat `w2_list` contributed by the rows `rs`. -/
def rowsW (obs2 : α → α → α) (iter_p2 : List α) (rs : List α) : List α :=
  (rs.map (rowVals obs2 iter_p2)).flatten

/-- The flat `p2_list` contributed by the rows `rs`. -/
def rowsP2 (iter_p2 : List α) (rs : List α) : List α :=
  (rs.map (fun _ => iter_p2)).flatten

end Defs

section ConcreteInstances

/-- A concrete solver instance over `ℚ` for closed evaluations: the
trajectory consists of the initial state alone. -/
def cexO : Odeint ℚ := fun _ ic _ _ _ _ => [ic]

/-- A concrete (unused by `cexO`) right-hand side over `ℚ`. -/
def cexRhs : RhsFn ℚ := fun _ _ _ => []

/-- A concrete module-level environment over `ℚ`. -/
def cexEnv : Env ℚ :=
  { w1 := 0, w2 := 0, p := [1, 1, 1, 1, 10], IC := [0, 0, 0, 0],
    t_interval := [], l1 := 1, l2 := 1, abserr := 0, relerr := 0 }

/-- The environment `cexEnv` with a different module-level initial
condition `IC` and nothing else changed. -/
def cexEnvIC : Env ℚ := { cexEnv with IC := [0, 0, 0, 1] }

/-- The environment `cexEnv` with different module-level initial
velocities `w1`, `w2` and nothing else changed. -/
def cexEnvW : Env ℚ := { cexEnv with w1 := 7, w2 := 8 }

/-- A concrete solver over `ℚ` whose induced `p_w_plot` observable is `5`
for `phi1 = 0` and, for `phi1 ≠ 0`, is `3` at `phi2 = 0` and `5`
otherwise (the trajectory is a single row whose `w2` entry encodes the
sign-negated table value). -/
def c3O : Odeint ℚ := fun _ ic _ _ _ _ =>
  [[0, 0, 0, -(if ic.getD 0 0 = 0 then (5 : ℚ) else if ic.getD 2 0 = 0 then 3 else 5)]]

/-- A concrete module-level environment over `ℚ` with zero lengths, so
that every deviation scanned by `find_vertical` is `0`. -/
def c3Env : Env ℚ :=
  { w1 := 0, w2 := 0, p := [], IC := [], t_interval := [],
    l1 := 0, l2 := 0, abserr := 0, relerr := 0 }

end ConcreteInstances

section DriverLemmas

variable {α : Type} [LinearOrderedField α]

/-- The `length_plot` loop, started from any copy `pcur` of the parameter
list that agrees with the base after one `set` at the varied index,
appends exactly the per-grid-point observables `lpObs`. -/
lemma lpStep_fold (O : Odeint α) (sine : α → α) (env : Env α) (rhs : RhsFn α)
    (b : Bool) (lst : List α) :
    ∀ (pcur acc : List α),
      (∀ l, (if b then pcur.set 2 l else pcur.set 3 l) = lpParams env b l) →
      (lst.foldl (lpStep O sine env rhs b) (pcur, acc)).2
        = acc ++ lst.map (lpObs O sine env rhs b) := by
  induction lst with
  | nil => intro pcur acc hp; simp
  | cons l ls ih =>
    intro pcur acc hp
    rw [List.foldl_cons]
    have hstep : lpStep O sine env rhs b (pcur, acc) l
        = (lpParams env b l, acc ++ [lpObs O sine env rhs b l]) := by
      simp only [lpStep, lpObs, lpTIndex, lpSol, hp l]
    rw [hstep, ih (lpParams env b l) (acc ++ [lpObs O sine env rhs b l]) ?_]
    · rw [List.append_assoc]
      rfl
    · intro l'
      unfold lpParams
      cases b <;> simp [List.set_set]

/-- Characterization of `length_plot`: the returned `w2_list` is the grid
mapped through the per-grid-point observable. -/
lemma length_plot_char (O : Odeint α) (sine : α → α) (env : Env α)
    (rhs : RhsFn α) (b : Bool) (n : Nat) (l_max : α) :
    length_plot O sine env rhs b n l_max
      = (linspace (1 / 4) l_max n,
         (linspace (1 / 4) l_max n).map (lpObs O sine env rhs b)) := by
  unfold length_plot
  dsimp only
  rw [lpStep_fold O sine env rhs b (linspace (1 / 4) l_max n) env.p []
    (fun l => rfl)]
  rfl

/-- The `mass_plot` analogue of `lpStep_fold`. -/
lemma mpStep_fold (O : Odeint α) (sine : α → α) (env : Env α) (rhs : RhsFn α)
    (b : Bool) (lst : List α) :
    ∀ (pcur acc : List α),
      (∀ m, (if b then pcur.set 0 m else pcur.set 1 m) = mpParams env b m) →
      (lst.foldl (mpStep O sine env rhs b) (pcur, acc)).2
        = acc ++ lst.map (mpObs O sine env rhs b) := by
  induction lst with
  | nil => intro pcur acc hp; simp
  | cons m ms ih =>
    intro pcur acc hp
    rw [List.foldl_cons]
    have hstep : mpStep O sine env rhs b (pcur, acc) m
        = (mpParams env b m, acc ++ [mpObs O sine env rhs b m]) := by
      simp only [mpStep, mpObs, mpTIndex, mpSol, hp m]
    rw [hstep, ih (mpParams env b m) (acc ++ [mpObs O sine env rhs b m]) ?_]
    · rw [List.append_assoc]
      rfl
    · intro m'
      unfold mpParams
      cases b <;> simp [List.set_set]

/-- Characterization of `mass_plot`. -/
lemma mass_plot_char (O : Odeint α) (sine : α → α) (env : Env α)
    (rhs : RhsFn α) (b : Bool) (n : Nat) (m_max : α) :
    mass_plot O sine env rhs b n m_max
      = (linspace (1 / 4) m_max n,
         (linspace (1 / 4) m_max n).map (mpObs O sine env rhs b)) := by
  unfold mass_plot
  dsimp only
  rw [mpStep_fold O sine env rhs b (linspace (1 / 4) m_max n) env.p []
    (fun m => rfl)]
  rfl

/-- The per-grid-point observable of `length_plot` depends on the
environment only through the module-level variables the source reads in
that loop: `p`, `IC`, `t_interval`, `l1`, `l2`, `abserr`, `relerr`. -/
lemma lpObs_env_congr (O : Odeint α) (sine : α → α) (env env' : Env α)
    (rhs : RhsFn α) (b : Bool) (l : α)
    (hp : env.p = env'.p) (hIC : env.IC = env'.IC)
    (ht : env.t_interval = env'.t_interval) (hl1 : env.l1 = env'.l1)
    (hl2 : env.l2 = env'.l2) (ha : env.abserr = env'.abserr)
    (hr : env.relerr = env'.relerr) :
    lpObs O sine env rhs b l = lpObs O sine env' rhs b l := by
  unfold lpObs lpTIndex lpSol lpParams
  rw [hp, hIC, ht, hl1, hl2, ha, hr]

/-- The `mass_plot` analogue of `lpObs_env_congr`. -/
lemma mpObs_env_congr (O : Odeint α) (sine : α → α) (env env' : Env α)
    (rhs : RhsFn α) (b : Bool) (m : α)
    (hp : env.p = env'.p) (hIC : env.IC = env'.IC)
    (ht : env.t_interval = env'.t_interval) (hl1 : env.l1 = env'.l1)
    (hl2 : env.l2 = env'.l2) (ha : env.abserr = env'.abserr)
    (hr : env.relerr = env'.relerr) :
    mpObs O sine env rhs b m = mpObs O sine env' rhs b m := by
  unfold mpObs mpTIndex mpSol mpParams
  rw [hp, hIC, ht, hl1, hl2, ha, hr]

/-- The `p_w_plot` observable depends on the environment only through
`w1`, `w2`, `p`, `t_interval`, `l1`, `l2`, `abserr`, `relerr`. -/
lemma pwObs_env_congr (O : Odeint α) (sine : α → α) (env env' : Env α)
    (rhs : RhsFn α) (q p2 : α)
    (hp : env.p = env'.p) (ht : env.t_interval = env'.t_interval)
    (hl1 : env.l1 = env'.l1) (hl2 : env.l2 = env'.l2)
    (ha : env.abserr = env'.abserr) (hr : env.relerr = env'.relerr)
    (hw1 : env.w1 = env'.w1) (hw2 : env.w2 = env'.w2) :
    pwObs O sine env rhs q p2 = pwObs O sine env' rhs q p2 := by
  unfold pwObs pwTIndex pwSol
  rw [hp, ht, hl1, hl2, ha, hr, hw1, hw2]

end DriverLemmas

section PWLemmas

variable {α : Type} [LinearOrderedField α]

/-- Unfolding of the running-maximum fold over a cons cell. -/
lemma foldMax_cons (w : α) (l : List α) (a : α) :
    foldMax (w :: l) a = foldMax l (if a < w then w else a) := rfl

/-- Unfolding of the running-minimum fold over a cons cell. -/
lemma foldMin_cons (w : α) (l : List α) (b : α) :
    foldMin (w :: l) b = foldMin l (if w < b then w else b) := rfl

/-- The running maximum never drops below its initial value. -/
lemma le_foldMax (l : List α) : ∀ a : α, a ≤ foldMax l a := by
  induction l with
  | nil => intro a; exact le_refl a
  | cons w l ih =>
    intro a
    rw [foldMax_cons]
    refine le_trans ?_ (ih (if a < w then w else a))
    split
    · exact le_of_lt (by assumption)
    · exact le_refl a

/-- The running maximum is bounded by any upper bound of the list and of
the initial value. -/
lemma foldMax_le (l : List α) : ∀ a M : α, (∀ w ∈ l, w ≤ M) → a ≤ M →
    foldMax l a ≤ M := by
  induction l with
  | nil => intro a M _ ha; exact ha
  | cons w l ih =>
    intro a M hub ha
    rw [foldMax_cons]
    refine ih _ M (fun w' hw' => hub w' (List.mem_cons_of_mem w hw')) ?_
    split
    · exact hub w (List.mem_cons_self w l)
    · exact ha

/-- Every list element is bounded by the running maximum. -/
lemma mem_le_foldMax (l : List α) : ∀ (a w : α), w ∈ l → w ≤ foldMax l a := by
  induction l with
  | nil => intro a w hw; cases hw
  | cons x l ih =>
    intro a w hw
    rw [foldMax_cons]
    rcases List.mem_cons.mp hw with rfl | hw'
    · refine le_trans ?_ (le_foldMax l (if a < w then w else a))
      split
      · exact le_refl w
      · exact le_of_not_lt (by assumption)
    · exact ih _ w hw'

/-- If `M` is an upper bound attained in the list and dominates the initial
value, the running maximum computes exactly `M`. -/
lemma foldMax_eq (l : List α) (a M : α) (hM : M ∈ l) (hub : ∀ w ∈ l, w ≤ M)
    (ha : a ≤ M) : foldMax l a = M :=
  le_antisymm (foldMax_le l a M hub ha) (mem_le_foldMax l a M hM)

/-- The running minimum never exceeds its initial value. -/
lemma foldMin_le_self (l : List α) : ∀ b : α, foldMin l b ≤ b := by
  induction l with
  | nil => intro b; exact le_refl b
  | cons w l ih =>
    intro b
    rw [foldMin_cons]
    refine le_trans (ih (if w < b then w else b)) ?_
    split
    · exact le_of_lt (by assumption)
    · exact le_refl b

/-- Any lower bound of the list and of the initial value bounds the
running minimum from below. -/
lemma le_foldMin (l : List α) : ∀ b m : α, (∀ w ∈ l, m ≤ w) → m ≤ b →
    m ≤ foldMin l b := by
  induction l with
  | nil => intro b m _ hb; exact hb
  | cons w l ih =>
    intro b m hlb hb
    rw [foldMin_cons]
    refine ih _ m (fun w' hw' => hlb w' (List.mem_cons_of_mem w hw')) ?_
    split
    · exact hlb w (List.mem_cons_self w l)
    · exact hb

/-- The running minimum is bounded by every list element. -/
lemma foldMin_le_mem (l : List α) : ∀ (b w : α), w ∈ l → foldMin l b ≤ w := by
  induction l with
  | nil => intro b w hw; cases hw
  | cons x l ih =>
    intro b w hw
    rw [foldMin_cons]
    rcases List.mem_cons.mp hw with rfl | hw'
    · refine le_trans (foldMin_le_self l (if w < b then w else b)) ?_
      split
      · exact le_refl w
      · exact le_of_not_lt (by assumption)
    · exact ih _ w hw'

/-- If `m` is a lower bound attained in the list and below the initial
value, the running minimum computes exactly `m`. -/
lemma foldMin_eq (l : List α) (b m : α) (hm : m ∈ l) (hlb : ∀ w ∈ l, m ≤ w)
    (hb : m ≤ b) : foldMin l b = m :=
  le_antisymm (foldMin_le_mem l b m hm) (le_foldMin l b m hlb hb)

/-- Looking up a value absent from the prefix of an append searches the
suffix, offset by the prefix length. -/
lemma idxOf?_append (x : α) : ∀ (l1 l2 : List α), x ∉ l1 →
    idxOf? x (l1 ++ l2) = (idxOf? x l2).map (fun j => l1.length + j) := by
  intro l1
  induction l1 with
  | nil =>
    intro l2 _
    rcases h : idxOf? x l2 with _ | j <;> simp [h]
  | cons y l1 ih =>
    intro l2 hx
    have hyx : ¬(y = x) := fun h => hx (h ▸ List.mem_cons_self y l1)
    have hxl1 : x ∉ l1 := fun h => hx (List.mem_cons_of_mem y h)
    show idxOf? x (y :: (l1 ++ l2)) = _
    rw [idxOf?, if_neg hyx, ih l2 hxl1]
    rcases h : idxOf? x l2 with _ | j
    · rfl
    · show some (l1.length + j + 1) = some ((y :: l1).length + j)
      congr 1
      simp [List.length_cons]
      omega

/-- A value present in the list is found by `idxOf?` at a valid index
holding that value. -/
lemma idxOf?_of_mem (x : α) : ∀ (l : List α), x ∈ l →
    ∃ j, idxOf? x l = some j ∧ j < l.length ∧ l.getD j 0 = x := by
  intro l
  induction l with
  | nil => intro hx; cases hx
  | cons y l ih =>
    intro hx
    by_cases hyx : y = x
    · exact ⟨0, by rw [idxOf?, if_pos hyx], Nat.succ_pos _, hyx⟩
    · have hxl : x ∈ l := by
        rcases List.mem_cons.mp hx with rfl | h
        · exact absurd rfl hyx
        · exact h
      obtain ⟨j, hj, hjlen, hjval⟩ := ih hxl
      refine ⟨j + 1, ?_, Nat.succ_lt_succ hjlen, hjval⟩
      rw [idxOf?, if_neg hyx, hj]
      rfl

/-- Characterization of the inner `p_w_plot` loop: it appends the row's
entries to the three flat lists and folds the row observables into the
running extrema. -/
lemma pwStep_fold (obs2 : α → α → α) (q : α) :
    ∀ (l : List α) (st : PW α) (a b : α),
      l.foldl (pwStep obs2 q) (st, a, b)
        = ({ st with
              p1_list := st.p1_list ++ l.map (fun _ => q),
              p2_list := st.p2_list ++ l,
              w2_list := st.w2_list ++ rowVals obs2 l q },
           foldMax (rowVals obs2 l q) a, foldMin (rowVals obs2 l q) b) := by
  intro l
  induction l with
  | nil =>
    intro st a b
    simp [rowVals, foldMax, foldMin]
  | cons p2 l ih =>
    intro st a b
    rw [List.foldl_cons]
    have hstep : pwStep obs2 q (st, a, b) p2
        = ({ st with
              p1_list := st.p1_list ++ [q],
              p2_list := st.p2_list ++ [p2],
              w2_list := st.w2_list ++ [obs2 q p2] },
           if a < obs2 q p2 then obs2 q p2 else a,
           if obs2 q p2 < b then obs2 q p2 else b) := rfl
    rw [hstep, ih]
    have hrv : rowVals obs2 (p2 :: l) q = obs2 q p2 :: rowVals obs2 l q := rfl
    rw [hrv, foldMax_cons, foldMin_cons]
    simp [List.append_assoc]

/-- Explicit form of one outer `p_w_plot` iteration. -/
lemma pwRow_eq (obs2 : α → α → α) (ip2 : List α) (st : PW α) (q : α) :
    pwRow obs2 ip2 st q
      = { p1_list := st.p1_list ++ ip2.map (fun _ => q),
          p2_list := st.p2_list ++ ip2,
          w2_list := st.w2_list ++ rowVals obs2 ip2 q,
          max_p2_list := st.max_p2_list
            ++ [(st.p2_list ++ ip2).getD
                  ((idxOf? (foldMax (rowVals obs2 ip2 q) 0)
                      (st.w2_list ++ rowVals obs2 ip2 q)).getD 0) 0],
          max_w2_list := st.max_w2_list ++ [foldMax (rowVals obs2 ip2 q) 0],
          min_p2_list := st.min_p2_list
            ++ [(st.p2_list ++ ip2).getD
                  ((idxOf? (foldMin (rowVals obs2 ip2 q) 9999)
                      (st.w2_list ++ rowVals obs2 ip2 q)).getD 0) 0],
          min_w2_list := st.min_w2_list ++ [foldMin (rowVals obs2 ip2 q) 9999] } := by
  unfold pwRow
  rw [pwStep_fold obs2 q ip2 st 0 9999]

/-- Each outer iteration only appends to every list of the state, so a
fold of further rows preserves existing prefixes. -/
lemma pwLoop_extends (obs2 : α → α → α) (ip2 : List α) :
    ∀ (rs : List α) (st : PW α), ∃ t1 t2 t3 t4 t5 t6 t7,
      rs.foldl (pwRow obs2 ip2) st
        = ⟨st.p1_list ++ t1, st.p2_list ++ t2, st.w2_list ++ t3,
           st.max_p2_list ++ t4, st.max_w2_list ++ t5,
           st.min_p2_list ++ t6, st.min_w2_list ++ t7⟩ := by
  intro rs
  induction rs with
  | nil =>
    intro st
    exact ⟨[], [], [], [], [], [], [], by simp⟩
  | cons q rs ih =>
    intro st
    rw [List.foldl_cons]
    obtain ⟨t1, t2, t3, t4, t5, t6, t7, hts⟩ := ih (pwRow obs2 ip2 st q)
    refine ⟨ip2.map (fun _ => q) ++ t1, ip2 ++ t2, rowVals obs2 ip2 q ++ t3,
      [(st.p2_list ++ ip2).getD
          ((idxOf? (foldMax (rowVals obs2 ip2 q) 0)
              (st.w2_list ++ rowVals obs2 ip2 q)).getD 0) 0] ++ t4,
      [foldMax (rowVals obs2 ip2 q) 0] ++ t5,
      [(st.p2_list ++ ip2).getD
          ((idxOf? (foldMin (rowVals obs2 ip2 q) 9999)
              (st.w2_list ++ rowVals obs2 ip2 q)).getD 0) 0] ++ t6,
      [foldMin (rowVals obs2 ip2 q) 9999] ++ t7, ?_⟩
    rw [hts, pwRow_eq]
    simp [List.append_assoc]

/-- Contents of the flat lists and lengths of the record lists after
folding a block of rows. -/
lemma pwLoop_prefix_spec (obs2 : α → α → α) (ip2 : List α) :
    ∀ (rs : List α) (st : PW α),
      (rs.foldl (pwRow obs2 ip2) st).w2_list = st.w2_list ++ rowsW obs2 ip2 rs ∧
      (rs.foldl (pwRow obs2 ip2) st).p2_list = st.p2_list ++ rowsP2 ip2 rs ∧
      (rs.foldl (pwRow obs2 ip2) st).max_w2_list.length
        = st.max_w2_list.length + rs.length ∧
      (rs.foldl (pwRow obs2 ip2) st).max_p2_list.length
        = st.max_p2_list.length + rs.length ∧
      (rs.foldl (pwRow obs2 ip2) st).min_w2_list.length
        = st.min_w2_list.length + rs.length ∧
      (rs.foldl (pwRow obs2 ip2) st).min_p2_list.length
        = st.min_p2_list.length + rs.length := by
  intro rs
  induction rs with
  | nil =>
    intro st
    simp [rowsW, rowsP2]
  | cons q rs ih =>
    intro st
    rw [List.foldl_cons, pwRow_eq]
    obtain ⟨h1, h2, h3, h4, h5, h6⟩ := ih _
    refine ⟨?_, ?_, ?_, ?_, ?_, ?_⟩
    · rw [h1]
      show _ = st.w2_list ++ ((rowVals obs2 ip2 q :: rs.map (rowVals obs2 ip2)).flatten)
      rw [List.flatten_cons, ← List.append_assoc]
      rfl
    · rw [h2]
      show _ = st.p2_list ++ ((ip2 :: rs.map (fun _ => ip2)).flatten)
      rw [List.flatten_cons, ← List.append_assoc]
      rfl
    · rw [h3]
      simp [List.length_append]
      omega
    · rw [h4]
      simp [List.length_append]
      omega
    · rw [h5]
      simp [List.length_append]
      omega
    · rw [h6]
      simp [List.length_append]
      omega

/-- Unfolding of the flat observable block over a cons cell. -/
lemma rowsW_cons (obs2 : α → α → α) (ip2 : List α) (q : α) (rs : List α) :
    rowsW obs2 ip2 (q :: rs) = rowVals obs2 ip2 q ++ rowsW obs2 ip2 rs := by
  unfold rowsW
  rw [List.map_cons, List.flatten_cons]

/-- Unfolding of the flat `p2` block over a cons cell. -/
lemma rowsP2_cons (ip2 : List α) (q : α) (rs : List α) :
    rowsP2 ip2 (q :: rs) = ip2 ++ rowsP2 ip2 rs := by
  unfold rowsP2
  rw [List.map_cons, List.flatten_cons]

/-- Length of the flat observable block of a list of rows. -/
lemma rowsW_length (obs2 : α → α → α) (ip2 : List α) :
    ∀ rs : List α, (rowsW obs2 ip2 rs).length = rs.length * ip2.length := by
  intro rs
  induction rs with
  | nil => simp [rowsW]
  | cons q rs ih =>
    rw [rowsW_cons, List.length_append, ih]
    have : (rowVals obs2 ip2 q).length = ip2.length := List.length_map ..
    rw [this, List.length_cons]
    ring

/-- Length of the flat `p2` block of a list of rows. -/
lemma rowsP2_length (ip2 : List α) :
    ∀ rs : List α, (rowsP2 ip2 rs).length = rs.length * ip2.length := by
  intro rs
  induction rs with
  | nil => simp [rowsP2]
  | cons q rs ih =>
    rw [rowsP2_cons, List.length_append, ih, List.length_cons]
    ring

/-- Membership in the flat observable block comes from one of the rows. -/
lemma mem_rowsW (obs2 : α → α → α) (ip2 : List α) (x : α) :
    ∀ rs : List α, x ∈ rowsW obs2 ip2 rs → ∃ q ∈ rs, x ∈ rowVals obs2 ip2 q := by
  intro rs
  induction rs with
  | nil => intro hx; cases hx
  | cons q rs ih =>
    intro hx
    rw [rowsW_cons] at hx
    rcases List.mem_append.mp hx with h | h
    · exact ⟨q, List.mem_cons_self q rs, h⟩
    · obtain ⟨q', hq', hx'⟩ := ih h
      exact ⟨q', List.mem_cons_of_mem q hq', hx'⟩

/-- Indexing into a flat block of equal-length rows. -/
lemma flatten_getD (c : Nat) :
    ∀ (ll : List (List α)) (r j : Nat), (∀ x ∈ ll, x.length = c) →
      r < ll.length → j < c →
      ll.flatten.getD (r * c + j) 0 = (ll.getD r []).getD j 0 := by
  intro ll
  induction ll with
  | nil => intro r j _ hr _; cases hr
  | cons x ll ih =>
    intro r j hlen hr hj
    rw [List.flatten_cons]
    cases r with
    | zero =>
      have hx : j < x.length := by
        rw [hlen x (List.mem_cons_self x ll)]
        exact hj
      rw [Nat.zero_mul, Nat.zero_add, List.getD_append _ _ _ _ hx]
      rfl
    | succ r =>
      have hx : x.length = c := hlen x (List.mem_cons_self x ll)
      have hidx : x.length ≤ (r + 1) * c + j := by
        rw [hx]
        calc c ≤ (r + 1) * c := Nat.le_mul_of_pos_left c (Nat.succ_pos r)
        _ ≤ (r + 1) * c + j := Nat.le_add_right _ _
      rw [List.getD_append_right _ _ _ _ hidx]
      have harith : (r + 1) * c + j - x.length = r * c + j := by
        rw [hx]
        have : (r + 1) * c = r * c + c := by ring
        omega
      rw [harith, ih r j (fun y hy => hlen y (List.mem_cons_of_mem x hy))
        (Nat.lt_of_succ_lt_succ hr) hj]
      rfl

/-- Decomposition of a list around a valid index. -/
lemma list_decomp (l : List α) (r : Nat) (h : r < l.length) :
    l = l.take r ++ l.getD r 0 :: l.drop (r + 1) := by
  have h1 : l.take r ++ l.drop r = l := List.take_append_drop r l
  have h2 : l.drop r = l[r] :: l.drop (r + 1) := List.drop_eq_getElem_cons h
  have h3 : l.getD r 0 = l[r] := List.getD_eq_getElem l 0 h
  rw [h3, ← h2, h1]

/-- Indexing a mapped list below its length applies the function to the
indexed element, whatever the defaults. -/
lemma getD_map_of_lt {A B : Type} (f : A → B) (l : List A) (k : Nat)
    (h : k < l.length) (d : B) (d' : A) : (l.map f).getD k d = f (l.getD k d') := by
  have h2 : k < (l.map f).length := by
    rw [List.length_map]
    exact h
  rw [List.getD_eq_getElem _ _ h2, List.getD_eq_getElem _ _ h, List.getElem_map]

/-- Writing one entry of a list leaves every other position unchanged. -/
lemma getD_set_ne {A : Type} (l : List A) (i j : Nat) (a d : A) (h : j ≠ i) :
    (l.set i a).getD j d = l.getD j d := by
  rw [List.getD_eq_getElem?_getD, List.getD_eq_getElem?_getD,
    List.getElem?_set_ne (Ne.symm h)]

/-- Indexing just past a prefix of known length picks the sandwiched
element. -/
lemma getD_sandwich {A : Type} (X : List A) (v : A) (t : List A) (r : Nat)
    (d : A) (h : X.length = r) : ((X ++ [v]) ++ t).getD r d = v := by
  have h1 : r < (X ++ [v]).length := by
    rw [List.length_append, h]
    simp
  rw [List.getD_append _ _ _ _ h1]
  have h2 : X.length ≤ r := le_of_eq h
  rw [List.getD_append_right _ _ _ _ h2]
  have h3 : r - X.length = 0 := by omega
  rw [h3]
  rfl

/-- Core correctness of the per-row extrema records of the `p_w_plot`
accumulation: for a row index `r` whose row attains its maximum `M ≥ 0`
and its minimum `m ≤ 9999`, and whose extremal values do not occur in any
earlier row, the loop records exactly `M` and `m` for that row together
with an inner-grid value at which each extremum is attained. -/
lemma pwLoop_row_extrema {α : Type} [LinearOrderedField α]
    (obs2 : α → α → α) (P ip2 : List α) (r : Nat) (M m : α)
    (hr : r < P.length)
    (hM : M ∈ rowVals obs2 ip2 (P.getD r 0))
    (hMub : ∀ w ∈ rowVals obs2 ip2 (P.getD r 0), w ≤ M)
    (hM0 : 0 ≤ M)
    (hMfresh : M ∉ rowsW obs2 ip2 (P.take r))
    (hm : m ∈ rowVals obs2 ip2 (P.getD r 0))
    (hmlb : ∀ w ∈ rowVals obs2 ip2 (P.getD r 0), m ≤ w)
    (hm9 : m ≤ 9999)
    (hmfresh : m ∉ rowsW obs2 ip2 (P.take r)) :
    (pwLoop obs2 P ip2).max_w2_list.getD r 0 = M ∧
      (∃ j, j < ip2.length ∧
        (pwLoop obs2 P ip2).max_p2_list.getD r 0 = ip2.getD j 0 ∧
        (rowVals obs2 ip2 (P.getD r 0)).getD j 0 = M) ∧
      (pwLoop obs2 P ip2).min_w2_list.getD r 0 = m ∧
      ∃ j, j < ip2.length ∧
        (pwLoop obs2 P ip2).min_p2_list.getD r 0 = ip2.getD j 0 ∧
        (rowVals obs2 ip2 (P.getD r 0)).getD j 0 = m := by
  have hdecomp : P = P.take r ++ P.getD r 0 :: P.drop (r + 1) := list_decomp P r hr
  have hAlen : (P.take r).length = r := by
    rw [List.length_take]
    omega
  obtain ⟨hw2, hp2, hmaxw, hmaxp, hminw, hminp⟩ :=
    pwLoop_prefix_spec obs2 ip2 (P.take r) emptyPW
  set st1 := (P.take r).foldl (pwRow obs2 ip2) emptyPW with hst1
  have hw2s : st1.w2_list = rowsW obs2 ip2 (P.take r) := by
    rw [hw2]
    simp [emptyPW]
  have hp2s : st1.p2_list = rowsP2 ip2 (P.take r) := by
    rw [hp2]
    simp [emptyPW]
  have hmaxws : st1.max_w2_list.length = r := by
    rw [hmaxw, hAlen]
    simp [emptyPW]
  have hmaxps : st1.max_p2_list.length = r := by
    rw [hmaxp, hAlen]
    simp [emptyPW]
  have hminws : st1.min_w2_list.length = r := by
    rw [hminw, hAlen]
    simp [emptyPW]
  have hminps : st1.min_p2_list.length = r := by
    rw [hminp, hAlen]
    simp [emptyPW]
  have hrowlen : (rowVals obs2 ip2 (P.getD r 0)).length = ip2.length :=
    List.length_map ..
  have hp2len : st1.p2_list.length = st1.w2_list.length := by
    rw [hw2s, hp2s, rowsW_length, rowsP2_length]
  have hmx : foldMax (rowVals obs2 ip2 (P.getD r 0)) 0 = M :=
    foldMax_eq _ 0 M hM hMub hM0
  have hmn : foldMin (rowVals obs2 ip2 (P.getD r 0)) 9999 = m :=
    foldMin_eq _ 9999 m hm hmlb hm9
  have hMnotin : M ∉ st1.w2_list := by
    rw [hw2s]
    exact hMfresh
  have hmnotin : m ∉ st1.w2_list := by
    rw [hw2s]
    exact hmfresh
  obtain ⟨jM, hjM, hjMlen, hjMval⟩ := idxOf?_of_mem M (rowVals obs2 ip2 (P.getD r 0)) hM
  obtain ⟨jm, hjm, hjmlen, hjmval⟩ := idxOf?_of_mem m (rowVals obs2 ip2 (P.getD r 0)) hm
  have hidxM : idxOf? M (st1.w2_list ++ rowVals obs2 ip2 (P.getD r 0))
      = some (st1.w2_list.length + jM) := by
    rw [idxOf?_append M _ _ hMnotin, hjM]
    rfl
  have hidxm : idxOf? m (st1.w2_list ++ rowVals obs2 ip2 (P.getD r 0))
      = some (st1.w2_list.length + jm) := by
    rw [idxOf?_append m _ _ hmnotin, hjm]
    rfl
  have hgetM : (st1.p2_list ++ ip2).getD (st1.w2_list.length + jM) 0 = ip2.getD jM 0 := by
    have hle : st1.p2_list.length ≤ st1.w2_list.length + jM := by
      rw [hp2len]
      exact Nat.le_add_right _ _
    rw [List.getD_append_right _ _ _ _ hle]
    have hsub : st1.w2_list.length + jM - st1.p2_list.length = jM := by omega
    rw [hsub]
  have hgetm : (st1.p2_list ++ ip2).getD (st1.w2_list.length + jm) 0 = ip2.getD jm 0 := by
    have hle : st1.p2_list.length ≤ st1.w2_list.length + jm := by
      rw [hp2len]
      exact Nat.le_add_right _ _
    rw [List.getD_append_right _ _ _ _ hle]
    have hsub : st1.w2_list.length + jm - st1.p2_list.length = jm := by omega
    rw [hsub]
  have hsplit : pwLoop obs2 P ip2
      = (P.drop (r + 1)).foldl (pwRow obs2 ip2) (pwRow obs2 ip2 st1 (P.getD r 0)) := by
    unfold pwLoop
    conv_lhs => rw [hdecomp]
    rw [List.foldl_append, List.foldl_cons]
  obtain ⟨t1, t2, t3, t4, t5, t6, t7, hext⟩ :=
    pwLoop_extends obs2 ip2 (P.drop (r + 1)) (pwRow obs2 ip2 st1 (P.getD r 0))
  have hrowmaxw : (pwRow obs2 ip2 st1 (P.getD r 0)).max_w2_list
      = st1.max_w2_list ++ [M] := by
    rw [pwRow_eq]
    show st1.max_w2_list ++ [foldMax (rowVals obs2 ip2 (P.getD r 0)) 0] = _
    rw [hmx]
  have hrowminw : (pwRow obs2 ip2 st1 (P.getD r 0)).min_w2_list
      = st1.min_w2_list ++ [m] := by
    rw [pwRow_eq]
    show st1.min_w2_list ++ [foldMin (rowVals obs2 ip2 (P.getD r 0)) 9999] = _
    rw [hmn]
  have hrowmaxp : (pwRow obs2 ip2 st1 (P.getD r 0)).max_p2_list
      = st1.max_p2_list ++ [ip2.getD jM 0] := by
    rw [pwRow_eq]
    show st1.max_p2_list
        ++ [(st1.p2_list ++ ip2).getD
              ((idxOf? (foldMax (rowVals obs2 ip2 (P.getD r 0)) 0)
                  (st1.w2_list ++ rowVals obs2 ip2 (P.getD r 0))).getD 0) 0] = _
    rw [hmx, hidxM]
    show st1.max_p2_list
        ++ [(st1.p2_list ++ ip2).getD (st1.w2_list.length + jM) 0] = _
    rw [hgetM]
  have hrowminp : (pwRow obs2 ip2 st1 (P.getD r 0)).min_p2_list
      = st1.min_p2_list ++ [ip2.getD jm 0] := by
    rw [pwRow_eq]
    show st1.min_p2_list
        ++ [(st1.p2_list ++ ip2).getD
              ((idxOf? (foldMin (rowVals obs2 ip2 (P.getD r 0)) 9999)
                  (st1.w2_list ++ rowVals obs2 ip2 (P.getD r 0))).getD 0) 0] = _
    rw [hmn, hidxm]
    show st1.min_p2_list
        ++ [(st1.p2_list ++ ip2).getD (st1.w2_list.length + jm) 0] = _
    rw [hgetm]
  refine ⟨?_, ⟨jM, by omega, ?_, hjMval⟩, ?_, ⟨jm, by omega, ?_, hjmval⟩⟩
  · rw [hsplit, hext]
    show ((pwRow obs2 ip2 st1 (P.getD r 0)).max_w2_list ++ t5).getD r 0 = M
    rw [hrowmaxw]
    exact getD_sandwich st1.max_w2_list M t5 r 0 hmaxws
  · rw [hsplit, hext]
    show ((pwRow obs2 ip2 st1 (P.getD r 0)).max_p2_list ++ t4).getD r 0 = ip2.getD jM 0
    rw [hrowmaxp]
    exact getD_sandwich st1.max_p2_list (ip2.getD jM 0) t4 r 0 hmaxps
  · rw [hsplit, hext]
    show ((pwRow obs2 ip2 st1 (P.getD r 0)).min_w2_list ++ t7).getD r 0 = m
    rw [hrowminw]
    exact getD_sandwich st1.min_w2_list m t7 r 0 hminws
  · rw [hsplit, hext]
    show ((pwRow obs2 ip2 st1 (P.getD r 0)).min_p2_list ++ t6).getD r 0 = ip2.getD jm 0
    rw [hrowminp]
    exact getD_sandwich st1.min_p2_list (ip2.getD jm 0) t6 r 0 hminps

end PWLemmas

section FindVerticalLemmas

variable {α : Type} [LinearOrderedField α]

lemma fvLoop_succ (dev : Nat → α) (n : Nat) :
    fvLoop dev (n + 1) = fvStep dev (fvLoop dev n) n := by
  unfold fvLoop
  rw [List.range_succ, List.foldl_append]
  rfl

/-- Full characterization of the `find_vertical` loop: a `none` result means
every deviation was at least the initial sentinel `999`, and a `some j`
result means `j` is the earliest index attaining the minimum deviation,
which is below `999`. -/
lemma fvLoop_spec (dev : Nat → α) (n : Nat) :
    ((fvLoop dev n).2 = none → (fvLoop dev n).1 = 999 ∧ ∀ i < n, 999 ≤ dev i) ∧
      (∀ j, (fvLoop dev n).2 = some j →
        (fvLoop dev n).1 = dev j ∧ j < n ∧ dev j < 999 ∧
          (∀ i < n, dev j ≤ dev i) ∧ ∀ i < j, dev j < dev i) := by
  induction n with
  | zero =>
    constructor
    · exact fun _ => ⟨rfl, fun i hi => absurd hi (Nat.not_lt_zero i)⟩
    · intro j hj
      exact absurd hj (by simp [fvLoop])
  | succ n ih =>
    rw [fvLoop_succ]
    unfold fvStep
    by_cases h : dev n < (fvLoop dev n).1
    · simp only [if_pos h]
      refine ⟨fun hcon => Option.noConfusion hcon, ?_⟩
      intro j hj
      obtain rfl : n = j := by injection hj
      rcases hsnd : (fvLoop dev n).2 with _ | j0
      · obtain ⟨h999, hall⟩ := ih.1 hsnd
        rw [h999] at h
        refine ⟨rfl, Nat.lt_succ_self n, h, ?_, ?_⟩
        · intro i hi
          rcases Nat.lt_succ_iff_lt_or_eq.mp hi with hi' | rfl
          · exact le_of_lt (lt_of_lt_of_le h (hall i hi'))
          · exact le_refl _
        · intro i hi
          exact lt_of_lt_of_le h (hall i hi)
      · obtain ⟨heq, hj0n, hj0small, hmin, hfirst⟩ := ih.2 j0 hsnd
        rw [heq] at h
        refine ⟨rfl, Nat.lt_succ_self n, lt_trans h hj0small, ?_, ?_⟩
        · intro i hi
          rcases Nat.lt_succ_iff_lt_or_eq.mp hi with hi' | rfl
          · exact le_of_lt (lt_of_lt_of_le h (hmin i hi'))
          · exact le_refl _
        · intro i hi
          exact lt_of_lt_of_le h (hmin i hi)
    · simp only [if_neg h]
      constructor
      · intro hnone
        obtain ⟨h999, hall⟩ := ih.1 hnone
        refine ⟨h999, ?_⟩
        intro i hi
        rcases Nat.lt_succ_iff_lt_or_eq.mp hi with hi' | rfl
        · exact hall i hi'
        · rw [h999] at h
          exact le_of_not_lt h
      · intro j hj
        obtain ⟨heq, hjn, hjsmall, hmin, hfirst⟩ := ih.2 j hj
        refine ⟨heq, Nat.lt_succ_of_lt hjn, hjsmall, ?_, hfirst⟩
        intro i hi
        rcases Nat.lt_succ_iff_lt_or_eq.mp hi with hi' | rfl
        · exact hmin i hi'
        · rw [heq] at h
          exact le_of_not_lt h

/-- The loop result is unchanged when two deviation functions agree on all
scanned indices. -/
lemma fvLoop_congr (dev dev' : Nat → α) (n : Nat)
    (h : ∀ i < n, dev i = dev' i) : fvLoop dev n = fvLoop dev' n := by
  induction n with
  | zero => rfl
  | succ n ih =>
    rw [fvLoop_succ, fvLoop_succ,
      ih (fun i hi => h i (Nat.lt_succ_of_lt hi)),
      fvStep, fvStep, h n (Nat.lt_succ_self n)]

end FindVerticalLemmas

section EvalLemmas

/-- On singleton series with sub-sentinel deviation, `find_vertical`
returns index `0`. -/
lemma find_vertical_singleton {α : Type} [LinearOrderedField α]
    (sine : α → α) (l1 l2 x y : α) (h : |l1 * sine x + l2 * sine y| < 999) :
    find_vertical sine l1 l2 [x] [y] = some 0 := by
  show (fvLoop (deviation sine l1 l2 0 [x] [y]) (0 + 1)).2 = some 0
  rw [fvLoop_succ]
  unfold fvStep
  have hd : deviation sine l1 l2 0 [x] [y] 0 = |l1 * sine x + l2 * sine y| := rfl
  have h999 : (fvLoop (deviation sine l1 l2 0 [x] [y]) 0).1 = 999 := rfl
  rw [h999, hd, if_pos h]

/-- Concrete evaluation: the crossing index of `length_plot` at the single
grid point of the `cexO`/`cexEnv` instance. -/
lemma lpTIndex_cexEnv_eval : lpTIndex cexO (fun x => x) cexEnv cexRhs true (1 / 4 : ℚ)
    = some 0 := by
  show find_vertical (fun x => x) (1 / 4 : ℚ) cexEnv.l2
      (col 0 (lpSol cexO cexEnv cexRhs true (1 / 4 : ℚ)))
      (col 2 (lpSol cexO cexEnv cexRhs true (1 / 4 : ℚ))) = some 0
  have hc0 : col 0 (lpSol cexO cexEnv cexRhs true (1 / 4 : ℚ)) = [0] := rfl
  have hc2 : col 2 (lpSol cexO cexEnv cexRhs true (1 / 4 : ℚ)) = [0] := rfl
  rw [hc0, hc2]
  exact find_vertical_singleton _ _ _ _ _ (by norm_num)

/-- Concrete evaluation: the `length_plot` observable of the
`cexO`/`cexEnv` instance is `0` (the stored `w2` is `0`). -/
lemma lpObs_cexEnv_eval : lpObs cexO (fun x => x) cexEnv cexRhs true (1 / 4 : ℚ) = 0 := by
  unfold lpObs
  rw [lpTIndex_cexEnv_eval]
  have hc3 : col 3 (lpSol cexO cexEnv cexRhs true (1 / 4 : ℚ)) = [0] := rfl
  rw [hc3]
  norm_num

/-- Concrete evaluation: with the modified module-level `IC` of
`cexEnvIC`, the same grid point yields observable `-1`. -/
lemma lpObs_cexEnvIC_eval : lpObs cexO (fun x => x) cexEnvIC cexRhs true (1 / 4 : ℚ)
    = -1 := by
  unfold lpObs
  have hti : lpTIndex cexO (fun x => x) cexEnvIC cexRhs true (1 / 4 : ℚ) = some 0 := by
    show find_vertical (fun x => x) (1 / 4 : ℚ) cexEnvIC.l2
        (col 0 (lpSol cexO cexEnvIC cexRhs true (1 / 4 : ℚ)))
        (col 2 (lpSol cexO cexEnvIC cexRhs true (1 / 4 : ℚ))) = some 0
    have hc0 : col 0 (lpSol cexO cexEnvIC cexRhs true (1 / 4 : ℚ)) = [0] := rfl
    have hc2 : col 2 (lpSol cexO cexEnvIC cexRhs true (1 / 4 : ℚ)) = [0] := rfl
    rw [hc0, hc2]
    exact find_vertical_singleton _ _ _ _ _ (by norm_num)
  rw [hti]
  have hc3 : col 3 (lpSol cexO cexEnvIC cexRhs true (1 / 4 : ℚ)) = [1] := rfl
  rw [hc3]
  norm_num

/-- The one-point length grid of the concrete instances. -/
lemma linspace_quarter_one : linspace ((1 : ℚ) / 4) 1 1 = [1 / 4] := rfl

/-- Concrete evaluation: the `p_w_plot` observable of the `c3O`/`c3Env`
instance realizes the table `5 / 3 / 5`. -/
lemma pwObs_c3_eval (q p2 : ℚ) : pwObs c3O (fun x => x) c3Env cexRhs q p2
    = (if q = 0 then 5 else if p2 = 0 then 3 else 5) := by
  have hsol : pwSol c3O c3Env cexRhs q p2
      = [[0, 0, 0, -(if q = 0 then (5 : ℚ) else if p2 = 0 then 3 else 5)]] := by
    show c3O cexRhs [q, c3Env.w1, p2, c3Env.w2] c3Env.t_interval c3Env.p
        c3Env.abserr c3Env.relerr = _
    simp only [c3O, c3Env]
    rfl
  have hti : pwTIndex c3O (fun x => x) c3Env cexRhs q p2 = some 0 := by
    unfold pwTIndex
    rw [hsol]
    have hc0 : col 0 [[0, 0, 0, -(if q = 0 then (5 : ℚ) else if p2 = 0 then 3 else 5)]]
        = [0] := rfl
    have hc2 : col 2 [[0, 0, 0, -(if q = 0 then (5 : ℚ) else if p2 = 0 then 3 else 5)]]
        = [0] := rfl
    rw [hc0, hc2]
    have hl1 : c3Env.l1 = (0 : ℚ) := rfl
    have hl2 : c3Env.l2 = (0 : ℚ) := rfl
    rw [hl1, hl2]
    exact find_vertical_singleton _ _ _ _ _ (by norm_num)
  unfold pwObs
  rw [hti, hsol]
  have hc3 : col 3 [[0, 0, 0, -(if q = 0 then (5 : ℚ) else if p2 = 0 then 3 else 5)]]
      = [-(if q = 0 then (5 : ℚ) else if p2 = 0 then 3 else 5)] := rfl
  rw [hc3]
  show -(([-(if q = 0 then (5 : ℚ) else if p2 = 0 then 3 else 5)]).getD 0 0) = _
  rw [List.getD_cons_zero]
  rw [neg_neg]

/-- The two-point angle grid of the `c3O` counterexample instance. -/
lemma linspace_zero_one_two : linspace (0 : ℚ) 1 2 = [0, 1] := by
  unfold linspace
  rw [if_neg (by norm_num)]
  rw [show List.range 2 = [0, 1] from rfl]
  norm_num

/-- Row `phi1 = 0` of the `c3O` instance: both observables are `5`. -/
lemma rowVals_c3_row0 :
    rowVals (pwObs c3O (fun x => x) c3Env cexRhs) [0, 1] (0 : ℚ) = [5, 5] := by
  show [pwObs c3O (fun x => x) c3Env cexRhs 0 0,
    pwObs c3O (fun x => x) c3Env cexRhs 0 1] = [5, 5]
  rw [pwObs_c3_eval, pwObs_c3_eval, if_pos rfl, if_pos rfl]

/-- Row `phi1 = 1` of the `c3O` instance: observables `3` then `5`. -/
lemma rowVals_c3_row1 :
    rowVals (pwObs c3O (fun x => x) c3Env cexRhs) [0, 1] (1 : ℚ) = [3, 5] := by
  show [pwObs c3O (fun x => x) c3Env cexRhs 1 0,
    pwObs c3O (fun x => x) c3Env cexRhs 1 1] = [3, 5]
  rw [pwObs_c3_eval, pwObs_c3_eval,
    if_neg (show ¬(1 : ℚ) = 0 by norm_num), if_neg (show ¬(1 : ℚ) = 0 by norm_num),
    if_pos rfl, if_neg (show ¬(1 : ℚ) = 0 by norm_num)]

/-- Running maximum of the first counterexample row. -/
lemma foldMax_c3_row0 : foldMax ([5, 5] : List ℚ) 0 = 5 := by
  rw [foldMax_cons, if_pos (show (0 : ℚ) < 5 by norm_num), foldMax_cons,
    if_neg (show ¬(5 : ℚ) < 5 by norm_num)]
  rfl

/-- Running maximum of the second counterexample row. -/
lemma foldMax_c3_row1 : foldMax ([3, 5] : List ℚ) 0 = 5 := by
  rw [foldMax_cons, if_pos (show (0 : ℚ) < 3 by norm_num), foldMax_cons,
    if_pos (show (3 : ℚ) < 5 by norm_num)]
  rfl

/-- Running minimum of the first counterexample row. -/
lemma foldMin_c3_row0 : foldMin ([5, 5] : List ℚ) 9999 = 5 := by
  rw [foldMin_cons, if_pos (show (5 : ℚ) < 9999 by norm_num), foldMin_cons,
    if_neg (show ¬(5 : ℚ) < 5 by norm_num)]
  rfl

/-- Running minimum of the second counterexample row. -/
lemma foldMin_c3_row1 : foldMin ([3, 5] : List ℚ) 9999 = 3 := by
  rw [foldMin_cons, if_pos (show (3 : ℚ) < 9999 by norm_num), foldMin_cons,
    if_neg (show ¬(5 : ℚ) < 3 by norm_num)]
  rfl

/-- First-occurrence lookup of `5` in the accumulated list after row 0. -/
lemma idxOf_c3_row0 : idxOf? (5 : ℚ) [5, 5] = some 0 := by
  show (if (5 : ℚ) = 5 then some 0 else (idxOf? (5 : ℚ) [5]).map (fun j => j + 1))
      = some 0
  rw [if_pos rfl]

/-- First-occurrence lookup of `5` in the accumulated list after row 1:
it finds the occurrence from row 0, not the one of row 1. -/
lemma idxOf_c3_max_row1 : idxOf? (5 : ℚ) [5, 5, 3, 5] = some 0 := by
  show (if (5 : ℚ) = 5 then some 0
      else (idxOf? (5 : ℚ) [5, 3, 5]).map (fun j => j + 1)) = some 0
  rw [if_pos rfl]

/-- First-occurrence lookup of `3` in the accumulated list after row 1. -/
lemma idxOf_c3_min_row1 : idxOf? (3 : ℚ) [5, 5, 3, 5] = some 2 := by
  show (if (5 : ℚ) = 3 then some 0
      else (idxOf? (3 : ℚ) [5, 3, 5]).map (fun j => j + 1)) = some 2
  rw [if_neg (show ¬(5 : ℚ) = 3 by norm_num)]
  show ((if (5 : ℚ) = 3 then some 0
      else (idxOf? (3 : ℚ) [3, 5]).map (fun j => j + 1)).map (fun j => j + 1)) = some 2
  rw [if_neg (show ¬(5 : ℚ) = 3 by norm_num)]
  show (((if (3 : ℚ) = 3 then some 0
      else (idxOf? (3 : ℚ) [5]).map (fun j => j + 1)).map (fun j => j + 1)).map
        (fun j => j + 1)) = some 2
  rw [if_pos rfl]
  rfl

/-- The single row of the one-point witness grid evaluates to `[5]`. -/
lemma rowVals_c3_single :
    rowVals (pwObs c3O (fun x => x) c3Env cexRhs) [0] (([0] : List ℚ).getD 0 0)
      = [5] := by
  show [pwObs c3O (fun x => x) c3Env cexRhs 0 0] = [5]
  rw [pwObs_c3_eval, if_pos rfl]

end EvalLemmas

section DriverTheorems

/-- Counterexample to claim C6: two runs of `length_plot` with identical
explicit arguments but different module-level initial conditions `IC`
produce different results (here with a concrete solver whose trajectory is
the initial state itself), so the result of the sweep drivers DOES depend
on module-level state that is not passed as an argument.  All other
environment fields agree. -/
theorem length_plot_cex_reads_global_IC :
    cexEnv.p = cexEnvIC.p ∧ cexEnv.t_interval = cexEnvIC.t_interval ∧
      cexEnv.l1 = cexEnvIC.l1 ∧ cexEnv.l2 = cexEnvIC.l2 ∧
      cexEnv.abserr = cexEnvIC.abserr ∧ cexEnv.relerr = cexEnvIC.relerr ∧
      cexEnv.w1 = cexEnvIC.w1 ∧ cexEnv.w2 = cexEnvIC.w2 ∧
      length_plot cexO (fun x => x) cexEnv cexRhs true 1 1
        ≠ length_plot cexO (fun x => x) cexEnvIC cexRhs true 1 1 := by
  refine ⟨rfl, rfl, rfl, rfl, rfl, rfl, rfl, rfl, ?_⟩
  intro h
  have e1 : (length_plot cexO (fun x => x) cexEnv cexRhs true 1 1).2 = [0] := by
    rw [length_plot_char]
    show (linspace ((1 : ℚ) / 4) 1 1).map (lpObs cexO (fun x => x) cexEnv cexRhs true)
        = [0]
    rw [linspace_quarter_one]
    rw [show ([1 / 4] : List ℚ).map (lpObs cexO (fun x => x) cexEnv cexRhs true)
        = [lpObs cexO (fun x => x) cexEnv cexRhs true (1 / 4)] from rfl]
    rw [lpObs_cexEnv_eval]
  have e2 : (length_plot cexO (fun x => x) cexEnvIC cexRhs true 1 1).2 = [-1] := by
    rw [length_plot_char]
    show (linspace ((1 : ℚ) / 4) 1 1).map (lpObs cexO (fun x => x) cexEnvIC cexRhs true)
        = [-1]
    rw [linspace_quarter_one]
    rw [show ([1 / 4] : List ℚ).map (lpObs cexO (fun x => x) cexEnvIC cexRhs true)
        = [lpObs cexO (fun x => x) cexEnvIC cexRhs true (1 / 4)] from rfl]
    rw [lpObs_cexEnvIC_eval]
  have h2 : ([0] : List ℚ) = [-1] := by rw [← e1, ← e2, h]
  have h3 : (0 : ℚ) = -1 := by injection h2
  norm_num at h3

/-- Claim C6, amended: each sweep driver is a pure function of its explicit
arguments together with the module-level variables it reads: if two
environments agree on `p`, `IC`, `t_interval`, `l1`, `l2`, `abserr`,
`relerr`, then `length_plot` and `mass_plot` coincide on them (in
particular they never read `w1`, `w2`), and if they also agree on `w1`,
`w2`, then `p_w_plot` coincides (in particular it never reads `IC`).
Runs with identical explicit arguments and identical module state are
identical; the unamended claim that no module-level state influences the
result is refuted by the counterexample. -/
theorem drivers_deterministic_given_module_state {α : Type}
    [LinearOrderedField α] (O : Odeint α) (sine : α → α) (env env' : Env α)
    (rhs : RhsFn α) (bl bm : Bool) (n nm itn : Nat) (l_max m_max s e : α)
    (hp : env.p = env'.p) (hIC : env.IC = env'.IC)
    (ht : env.t_interval = env'.t_interval) (hl1 : env.l1 = env'.l1)
    (hl2 : env.l2 = env'.l2) (ha : env.abserr = env'.abserr)
    (hr : env.relerr = env'.relerr) :
    length_plot O sine env rhs bl n l_max
        = length_plot O sine env' rhs bl n l_max ∧
      mass_plot O sine env rhs bm nm m_max
        = mass_plot O sine env' rhs bm nm m_max ∧
      (env.w1 = env'.w1 → env.w2 = env'.w2 →
        p_w_plot O sine env rhs itn s e = p_w_plot O sine env' rhs itn s e) := by
  refine ⟨?_, ?_, ?_⟩
  · rw [length_plot_char, length_plot_char]
    have : (linspace (1 / 4) l_max n).map (lpObs O sine env rhs bl)
        = (linspace (1 / 4) l_max n).map (lpObs O sine env' rhs bl) :=
      List.map_congr_left fun l _ =>
        lpObs_env_congr O sine env env' rhs bl l hp hIC ht hl1 hl2 ha hr
    rw [this]
  · rw [mass_plot_char, mass_plot_char]
    have : (linspace (1 / 4) m_max nm).map (mpObs O sine env rhs bm)
        = (linspace (1 / 4) m_max nm).map (mpObs O sine env' rhs bm) :=
      List.map_congr_left fun m _ =>
        mpObs_env_congr O sine env env' rhs bm m hp hIC ht hl1 hl2 ha hr
    rw [this]
  · intro hw1 hw2
    unfold p_w_plot
    have hobs : pwObs O sine env rhs = pwObs O sine env' rhs :=
      funext fun q => funext fun p2 =>
        pwObs_env_congr O sine env env' rhs q p2 hp ht hl1 hl2 ha hr hw1 hw2
    rw [hobs]

/-- Witness for claim C6 (amended): the environments `cexEnv` and `cexEnvW`
differ only in `w1`, `w2`, the hypotheses hold by `rfl`, and the theorem
yields equality of the `length_plot` results. -/
theorem drivers_deterministic_given_module_state_witness :
    length_plot cexO (fun x => x) cexEnv cexRhs true 1 1
      = length_plot cexO (fun x => x) cexEnvW cexRhs true 1 1 :=
  (drivers_deterministic_given_module_state cexO (fun x => x) cexEnv cexEnvW
    cexRhs true true 1 1 1 1 1 0 0 rfl rfl rfl rfl rfl rfl rfl).1

/-- Claim C7: at every grid point of every sweep driver, whenever
`find_vertical` locates a crossing index, the observable appended to the
sweep result is the sign-negated `omega2` component of that grid point's
trajectory at exactly that index. -/
theorem sweep_observable_is_neg_w2_at_crossing {α : Type}
    [LinearOrderedField α] (O : Odeint α) (sine : α → α) (env : Env α)
    (rhs : RhsFn α) (bl bm : Bool) (n nm itn : Nat) (l_max m_max s e : α) :
    (∀ k i, k < (linspace ((1 : α) / 4) l_max n).length →
      lpTIndex O sine env rhs bl ((linspace ((1 : α) / 4) l_max n).getD k 0)
          = some i →
      (length_plot O sine env rhs bl n l_max).2.getD k 0
        = -((col 3 (lpSol O env rhs bl
            ((linspace ((1 : α) / 4) l_max n).getD k 0))).getD i 0)) ∧
    (∀ k i, k < (linspace ((1 : α) / 4) m_max nm).length →
      mpTIndex O sine env rhs bm ((linspace ((1 : α) / 4) m_max nm).getD k 0)
          = some i →
      (mass_plot O sine env rhs bm nm m_max).2.getD k 0
        = -((col 3 (mpSol O env rhs bm
            ((linspace ((1 : α) / 4) m_max nm).getD k 0))).getD i 0)) ∧
    (∀ r j i, r < (linspace s e itn).length → j < (linspace s e itn).length →
      pwTIndex O sine env rhs ((linspace s e itn).getD r 0)
          ((linspace s e itn).getD j 0) = some i →
      (p_w_plot O sine env rhs itn s e).w2_list.getD
          (r * (linspace s e itn).length + j) 0
        = -((col 3 (pwSol O env rhs ((linspace s e itn).getD r 0)
            ((linspace s e itn).getD j 0))).getD i 0)) := by
  refine ⟨?_, ?_, ?_⟩
  · intro k i hk hidx
    rw [length_plot_char]
    show ((linspace ((1 : α) / 4) l_max n).map (lpObs O sine env rhs bl)).getD k 0 = _
    rw [getD_map_of_lt (lpObs O sine env rhs bl) _ k hk 0 0]
    unfold lpObs
    rw [hidx]
    rfl
  · intro k i hk hidx
    rw [mass_plot_char]
    show ((linspace ((1 : α) / 4) m_max nm).map (mpObs O sine env rhs bm)).getD k 0 = _
    rw [getD_map_of_lt (mpObs O sine env rhs bm) _ k hk 0 0]
    unfold mpObs
    rw [hidx]
    rfl
  · intro r j i hr hj hidx
    unfold p_w_plot pwLoop
    obtain ⟨hw2, _, _, _, _, _⟩ :=
      pwLoop_prefix_spec (pwObs O sine env rhs) (linspace s e itn)
        (linspace s e itn) emptyPW
    rw [hw2]
    show (rowsW (pwObs O sine env rhs) (linspace s e itn) (linspace s e itn)).getD
        (r * (linspace s e itn).length + j) 0 = _
    unfold rowsW
    rw [flatten_getD (linspace s e itn).length _ r j ?_ ?_ hj]
    · rw [show ((linspace s e itn).map
          (rowVals (pwObs O sine env rhs) (linspace s e itn))).getD r []
            = rowVals (pwObs O sine env rhs) (linspace s e itn)
                ((linspace s e itn).getD r 0) from
        getD_map_of_lt _ _ r hr [] 0]
      unfold rowVals
      rw [getD_map_of_lt _ _ j hj 0 0]
      unfold pwObs
      rw [hidx]
      rfl
    · intro x hx
      obtain ⟨q, _, rfl⟩ := List.mem_map.mp hx
      exact List.length_map ..
    · rw [List.length_map]
      exact hr

/-- Witness for claim C7 at the concrete instance `cexO`, `cexEnv` with a
one-point grid: the crossing index at the only grid point is `some 0` and
the theorem applies. -/
theorem sweep_observable_is_neg_w2_at_crossing_witness :
    (length_plot cexO (fun x => x) cexEnv cexRhs true 1 1).2.getD 0 0
      = -((col 3 (lpSol cexO cexEnv cexRhs true
          ((linspace ((1 : ℚ) / 4) 1 1).getD 0 0))).getD 0 0) :=
  (sweep_observable_is_neg_w2_at_crossing cexO (fun x => x) cexEnv cexRhs
    true true 1 1 1 1 1 0 0).1 0 0
    (by rw [linspace_quarter_one]; norm_num) lpTIndex_cexEnv_eval

/-- Claim C10: `length_plot` and `mass_plot` never mutate the base
parameter vector: the whole sweep result is the grid mapped through a
per-grid-point observable whose parameter vector is the ORIGINAL base `p`
with only the varied entry replaced (`set`), and every entry other than
the varied index of the parameter vector passed to the solver equals the
corresponding entry of the unchanged base. -/
theorem length_mass_plot_base_params_unchanged {α : Type}
    [LinearOrderedField α] (O : Odeint α) (sine : α → α) (env : Env α)
    (rhs : RhsFn α) (bl bm : Bool) (n nm : Nat) (l_max m_max : α) :
    ((length_plot O sine env rhs bl n l_max).2
        = (linspace (1 / 4) l_max n).map (lpObs O sine env rhs bl) ∧
      (∀ l, lpParams env bl l = env.p.set (if bl then 2 else 3) l) ∧
      ∀ l j, j ≠ (if bl then 2 else 3) →
        (lpParams env bl l).getD j 0 = env.p.getD j 0) ∧
    ((mass_plot O sine env rhs bm nm m_max).2
        = (linspace (1 / 4) m_max nm).map (mpObs O sine env rhs bm) ∧
      (∀ m, mpParams env bm m = env.p.set (if bm then 0 else 1) m) ∧
      ∀ m j, j ≠ (if bm then 0 else 1) →
        (mpParams env bm m).getD j 0 = env.p.getD j 0) := by
  have hlp : ∀ l, lpParams env bl l = env.p.set (if bl then 2 else 3) l := by
    intro l
    cases bl <;> rfl
  have hmp : ∀ m, mpParams env bm m = env.p.set (if bm then 0 else 1) m := by
    intro m
    cases bm <;> rfl
  refine ⟨⟨?_, hlp, ?_⟩, ⟨?_, hmp, ?_⟩⟩
  · rw [length_plot_char]
  · intro l j hj
    rw [hlp l]
    exact getD_set_ne env.p (if bl then 2 else 3) j l 0 hj
  · rw [mass_plot_char]
  · intro m j hj
    rw [hmp m]
    exact getD_set_ne env.p (if bm then 0 else 1) j m 0 hj

/-- Witness for claim C10 at a concrete instance: entry 4 (`g`) of the
parameter vector passed to the solver by `length_plot` equals entry 4 of
the untouched base. -/
theorem length_mass_plot_base_params_unchanged_witness :
    (lpParams cexEnv true (9 : ℚ)).getD 4 0 = cexEnv.p.getD 4 0 :=
  (length_mass_plot_base_params_unchanged cexO (fun x => x) cexEnv cexRhs
    true true 1 1 1 1).1.2.2 9 4 (by norm_num)

end DriverTheorems

section PWTheorems

/-- Counterexample to claim C3: with the concrete instance `c3O`/`c3Env`
over the angle grid `linspace 0 1 2 = [0, 1]`, the second row
(`phi1 = 1`) has observables `3` at `phi2 = 0` and `5` at `phi2 = 1`, so
its maximum `5` is attained only at `phi2 = 1`; yet the driver records
`max_p2_list = [0, 0]`: the companion recorded for row 1 is `0`, the
`phi2` of the EARLIER row where the value `5` first appeared in the
globally accumulated `w2_list` — not a `phi2` of row 1. -/
theorem p_w_plot_cex_cross_row_companion :
    (p_w_plot c3O (fun x => x) c3Env cexRhs 2 0 1).max_p2_list = [0, 0] ∧
      linspace (0 : ℚ) 1 2 = [0, 1] ∧
      pwObs c3O (fun x => x) c3Env cexRhs 1 0 = 3 ∧
      pwObs c3O (fun x => x) c3Env cexRhs 1 1 = 5 ∧
      (0 : ℚ) ≠ 1 := by
  have hst1 : pwRow (pwObs c3O (fun x => x) c3Env cexRhs) [0, 1] emptyPW (0 : ℚ)
      = ⟨[0, 0], [0, 1], [5, 5], [0], [5], [0], [5]⟩ := by
    rw [pwRow_eq, rowVals_c3_row0, foldMax_c3_row0, foldMin_c3_row0]
    dsimp only [emptyPW, List.nil_append]
    rw [idxOf_c3_row0]
    rfl
  have hst2 : pwRow (pwObs c3O (fun x => x) c3Env cexRhs) [0, 1]
      (⟨[0, 0], [0, 1], [5, 5], [0], [5], [0], [5]⟩ : PW ℚ) (1 : ℚ)
      = ⟨[0, 0, 1, 1], [0, 1, 0, 1], [5, 5, 3, 5],
          [0, 0], [5, 5], [0, 0], [5, 3]⟩ := by
    rw [pwRow_eq, rowVals_c3_row1, foldMax_c3_row1, foldMin_c3_row1]
    dsimp only [List.cons_append, List.nil_append]
    rw [idxOf_c3_max_row1, idxOf_c3_min_row1]
    rfl
  refine ⟨?_, linspace_zero_one_two, ?_, ?_, by norm_num⟩
  · unfold p_w_plot
    rw [linspace_zero_one_two]
    unfold pwLoop
    rw [List.foldl_cons, hst1, List.foldl_cons, hst2, List.foldl_nil]
  · rw [pwObs_c3_eval, if_neg (show ¬(1 : ℚ) = 0 by norm_num), if_pos rfl]
  · rw [pwObs_c3_eval, if_neg (show ¬(1 : ℚ) = 0 by norm_num),
      if_neg (show ¬(1 : ℚ) = 0 by norm_num)]

/-- Claim C3, amended: in the two-dimensional angle sweep `p_w_plot`, for
each row `r` of the outer grid whose observables attain a maximum `M ≥ 0`
and a minimum `m ≤ 9999`, and whose extremal values do not occur in any
earlier row of the accumulated lists, the driver records for that row
exactly `M` (resp. `m`) together with an inner-grid `phi2` value of that
same row at which the extremum is attained.  (The unamended "including
rows whose extremal value also occurs in an earlier row" is refuted by the
counterexample; rows with all-negative observables record `0` instead of
the maximum, and Python's `list.index` raises when the recorded extremum
is absent, so those row conditions are required.) -/
theorem p_w_plot_row_extrema_records {α : Type} [LinearOrderedField α]
    (O : Odeint α) (sine : α → α) (env : Env α) (rhs : RhsFn α)
    (iter_n : Nat) (angle_start angle_end : α) (P : List α)
    (hP : P = linspace angle_start angle_end iter_n) (r : Nat) (M m : α)
    (hr : r < P.length)
    (hM : M ∈ rowVals (pwObs O sine env rhs) P (P.getD r 0))
    (hMub : ∀ w ∈ rowVals (pwObs O sine env rhs) P (P.getD r 0), w ≤ M)
    (hM0 : 0 ≤ M)
    (hMfresh : M ∉ rowsW (pwObs O sine env rhs) P (P.take r))
    (hm : m ∈ rowVals (pwObs O sine env rhs) P (P.getD r 0))
    (hmlb : ∀ w ∈ rowVals (pwObs O sine env rhs) P (P.getD r 0), m ≤ w)
    (hm9 : m ≤ 9999)
    (hmfresh : m ∉ rowsW (pwObs O sine env rhs) P (P.take r)) :
    ((p_w_plot O sine env rhs iter_n angle_start angle_end).max_w2_list.getD r 0
        = M ∧
      ∃ j, j < P.length ∧
        (p_w_plot O sine env rhs iter_n angle_start angle_end).max_p2_list.getD r 0
          = P.getD j 0 ∧
        pwObs O sine env rhs (P.getD r 0) (P.getD j 0) = M) ∧
    ((p_w_plot O sine env rhs iter_n angle_start angle_end).min_w2_list.getD r 0
        = m ∧
      ∃ j, j < P.length ∧
        (p_w_plot O sine env rhs iter_n angle_start angle_end).min_p2_list.getD r 0
          = P.getD j 0 ∧
        pwObs O sine env rhs (P.getD r 0) (P.getD j 0) = m) := by
  have hpw : p_w_plot O sine env rhs iter_n angle_start angle_end
      = pwLoop (pwObs O sine env rhs) P P := by
    unfold p_w_plot
    rw [hP]
  obtain ⟨k1, k2, k3, k4⟩ := pwLoop_row_extrema (pwObs O sine env rhs) P P r M m
    hr hM hMub hM0 hMfresh hm hmlb hm9 hmfresh
  refine ⟨⟨by rw [hpw]; exact k1, ?_⟩, ⟨by rw [hpw]; exact k3, ?_⟩⟩
  · obtain ⟨j, hjlt, hjp, hjv⟩ := k2
    refine ⟨j, hjlt, by rw [hpw]; exact hjp, ?_⟩
    have hmap := getD_map_of_lt (pwObs O sine env rhs (P.getD r 0)) P j hjlt 0 0
    rw [← hmap]
    exact hjv
  · obtain ⟨j, hjlt, hjp, hjv⟩ := k4
    refine ⟨j, hjlt, by rw [hpw]; exact hjp, ?_⟩
    have hmap := getD_map_of_lt (pwObs O sine env rhs (P.getD r 0)) P j hjlt 0 0
    rw [← hmap]
    exact hjv

/-- Witness for claim C3 (amended) on the one-point grid
`linspace 0 0 1 = [0]` of the `c3O` instance, whose single observable is
`5`: the row hypotheses hold with `M = m = 5` and the theorem records `5`
as the row maximum. -/
theorem p_w_plot_row_extrema_records_witness :
    (p_w_plot c3O (fun x => x) c3Env cexRhs 1 0 0).max_w2_list.getD 0 0 = 5 :=
  (p_w_plot_row_extrema_records c3O (fun x => x) c3Env cexRhs 1 0 0 [0] rfl 0 5 5
    (by norm_num)
    (by rw [rowVals_c3_single]; exact List.mem_singleton.mpr rfl)
    (by intro w hw
        rw [rowVals_c3_single] at hw
        rw [List.mem_singleton.mp hw])
    (by norm_num)
    (by simp [rowsW])
    (by rw [rowVals_c3_single]; exact List.mem_singleton.mpr rfl)
    (by intro w hw
        rw [rowVals_c3_single] at hw
        rw [List.mem_singleton.mp hw])
    (by norm_num)
    (by simp [rowsW])).1.1

end PWTheorems


section FindVerticalTheorems

/-- Counterexample to claim C2: the series `p1 = p2 = [pi/2]` with lengths
`l1 = 1000`, `l2 = 0` are equal-length and non-empty, yet `find_vertical`
returns `none` rather than the minimizing index `0`, because the deviation
`|1000*sin(pi/2) + 0*sin(pi/2)| = 1000` never beats the initial sentinel
`closest = 999`. -/
theorem find_vertical_cex_sentinel :
    find_vertical Real.sin 1000 0 [Real.pi / 2] [Real.pi / 2] = none ∧
      ([Real.pi / 2] : List ℝ) ≠ [] := by
  constructor
  · show (fvLoop (deviation Real.sin 1000 0 0 [Real.pi / 2] [Real.pi / 2]) 1).2 = none
    rw [show (1 : Nat) = 0 + 1 from rfl, fvLoop_succ]
    have hdev : deviation Real.sin 1000 0 (0 : ℝ) [Real.pi / 2] [Real.pi / 2] 0 = 1000 := by
      simp [deviation, Real.sin_pi_div_two]
    rw [fvStep, hdev]
    norm_num [fvLoop]
  · simp

/-- Claim C2, amended: for equal-length non-empty angle series such that at
least one index has deviation below the sentinel `999`, `find_vertical`
returns the smallest index minimizing `|l1*sin(p1[i]) + l2*sin(p2[i])|`:
the returned index is a global minimizer and every earlier index has
strictly larger deviation (earliest-index tie-break). -/
theorem find_vertical_earliest_argmin {α : Type} [LinearOrderedField α]
    (sine : α → α) (l1 l2 : α) (p1 p2 : List α)
    (hlen : p1.length = p2.length) (hne : p1 ≠ [])
    (hlow : ∃ i < p1.length, deviation sine l1 l2 0 p1 p2 i < 999) :
    ∃ j, find_vertical sine l1 l2 p1 p2 = some j ∧ j < p1.length ∧
      (∀ i < p1.length,
        deviation sine l1 l2 0 p1 p2 j ≤ deviation sine l1 l2 0 p1 p2 i) ∧
      ∀ i < j, deviation sine l1 l2 0 p1 p2 j < deviation sine l1 l2 0 p1 p2 i := by
  rcases hres : find_vertical sine l1 l2 p1 p2 with _ | j
  · obtain ⟨_, hall⟩ := (fvLoop_spec (deviation sine l1 l2 0 p1 p2) p1.length).1 hres
    obtain ⟨i, hi, hilow⟩ := hlow
    exact absurd (hall i hi) (not_le.mpr hilow)
  · obtain ⟨_, hjn, _, hmin, hfirst⟩ :=
      (fvLoop_spec (deviation sine l1 l2 0 p1 p2) p1.length).2 j hres
    exact ⟨j, rfl, hjn, hmin, hfirst⟩

/-- Witness for claim C2 (amended) at the concrete input `sine = id`,
`l1 = l2 = 1`, `p1 = p2 = [2, 0]` over `ℚ`: the hypotheses hold (the
deviation at index 1 is `0 < 999`) and the theorem applies. -/
theorem find_vertical_earliest_argmin_witness :
    ∃ j, find_vertical (fun x => x) (1 : ℚ) 1 [2, 0] [2, 0] = some j ∧
      j < ([2, 0] : List ℚ).length ∧
      (∀ i < ([2, 0] : List ℚ).length,
        deviation (fun x => x) (1 : ℚ) 1 0 [2, 0] [2, 0] j
          ≤ deviation (fun x => x) (1 : ℚ) 1 0 [2, 0] [2, 0] i) ∧
      ∀ i < j, deviation (fun x => x) (1 : ℚ) 1 0 [2, 0] [2, 0] j
        < deviation (fun x => x) (1 : ℚ) 1 0 [2, 0] [2, 0] i :=
  find_vertical_earliest_argmin (fun x => x) 1 1 [2, 0] [2, 0] rfl (by simp)
    ⟨1, by norm_num, by norm_num [deviation]⟩

/-- Counterexample to claim C4: the non-empty series `p1 = [pi/2]`,
`p2 = [0]` with `l1 = 2000`, `l2 = 0` makes `find_vertical` return its
"not found" signal `none` even though the input is non-empty: the sole
deviation `|2000*sin(pi/2) + 0*sin(0)| = 2000` is at least the sentinel
`999`, so no index is ever recorded. -/
theorem find_vertical_cex_none_nonempty :
    find_vertical Real.sin 2000 0 [Real.pi / 2] [(0 : ℝ)] = none ∧
      ([Real.pi / 2] : List ℝ) ≠ [] := by
  constructor
  · show (fvLoop (deviation Real.sin 2000 0 0 [Real.pi / 2] [0]) 1).2 = none
    rw [show (1 : Nat) = 0 + 1 from rfl, fvLoop_succ]
    have hdev : deviation Real.sin 2000 0 (0 : ℝ) [Real.pi / 2] [0] 0 = 2000 := by
      simp [deviation, Real.sin_pi_div_two]
    rw [fvStep, hdev]
    norm_num [fvLoop]
  · simp

/-- Claim C4, amended: `find_vertical` returns its "not found" signal
`none` if and only if every scanned index has deviation at least the
sentinel `999` — which vacuously includes the empty series, but also
non-empty series all of whose deviations reach the sentinel.  Otherwise
some valid index is returned. -/
theorem find_vertical_none_iff {α : Type} [LinearOrderedField α]
    (sine : α → α) (l1 l2 : α) (p1 p2 : List α) :
    find_vertical sine l1 l2 p1 p2 = none ↔
      ∀ i < p1.length, 999 ≤ deviation sine l1 l2 0 p1 p2 i := by
  constructor
  · intro hres
    exact ((fvLoop_spec (deviation sine l1 l2 0 p1 p2) p1.length).1 hres).2
  · intro hall
    rcases hres : find_vertical sine l1 l2 p1 p2 with _ | j
    · rfl
    · obtain ⟨_, hjn, hjsmall, _, _⟩ :=
        (fvLoop_spec (deviation sine l1 l2 0 p1 p2) p1.length).2 j hres
      exact absurd (hall j hjn) (not_le.mpr hjsmall)

/-- Claim C9: under the precondition `len(p1) <= len(p2)` every list access
of the `find_vertical` loop is in bounds, so the embedding is total in a
strong sense: the result does not depend on the junk default `d` supplied
to the out-of-range access function; and whenever a non-`none` index is
returned it is a valid index into `p1` (hence into `p2` and into any
trajectory column of the same length). -/
theorem find_vertical_in_bounds {α : Type} [LinearOrderedField α]
    (sine : α → α) (l1 l2 : α) (p1 p2 : List α)
    (hlen : p1.length ≤ p2.length) (d : α) :
    (fvLoop (deviation sine l1 l2 d p1 p2) p1.length).2
        = find_vertical sine l1 l2 p1 p2 ∧
      ∀ i, find_vertical sine l1 l2 p1 p2 = some i → i < p1.length := by
  constructor
  · show _ = (fvLoop (deviation sine l1 l2 0 p1 p2) p1.length).2
    rw [fvLoop_congr (deviation sine l1 l2 d p1 p2) (deviation sine l1 l2 0 p1 p2)
      p1.length ?_]
    intro i hi
    have hi2 : i < p2.length := lt_of_lt_of_le hi hlen
    unfold deviation
    rw [List.getD_eq_getElem p1 d hi, List.getD_eq_getElem p1 0 hi,
      List.getD_eq_getElem p2 d hi2, List.getD_eq_getElem p2 0 hi2]
  · intro i hres
    exact ((fvLoop_spec (deviation sine l1 l2 0 p1 p2) p1.length).2 i hres).2.1

/-- Witness for claim C9 at the concrete input `p1 = [1]`, `p2 = [1, 2]`
(so `len(p1) <= len(p2)`) with junk default `5`: the theorem applies and
its first component gives default-independence of the loop. -/
theorem find_vertical_in_bounds_witness :
    (fvLoop (deviation (fun x => x) (1 : ℚ) 1 5 [1] [1, 2]) ([1] : List ℚ).length).2
      = find_vertical (fun x => x) (1 : ℚ) 1 [1] [1, 2] :=
  (find_vertical_in_bounds (fun x => x) 1 1 [1] [1, 2] (by norm_num) 5).1

end FindVerticalTheorems

section RhsTheorems

/-- Claim C1.  At the state `(phi1, omega1, phi2, omega2) = (pi/2, 1, 0, 0)`
with parameters `(m1, m2, l1, l2, g) = (1, 1, 1, 1, 10)` (nonzero
denominator: it evaluates to `2`), the code's `dp_rhs` returns
`omega2_dot = 2`, while the standard second Lagrange equation
`(l1*omega1^2*sin(phi1-phi2) - g*sin(phi2) - l1*omega1_dot*cos(phi1-phi2))/l2`
claimed by the spec evaluates to `1` at the same point (with
`omega1_dot = -10`, as the code also computes): the code's `w2_dot` doubles
the `l1*omega1^2*sin(phi1-phi2)` term via its literal factor
`l1*w1*w1*2*sin(p1-p2)`. -/
theorem dp_rhs_w2dot_doubles_omega1_sq_term :
    dp_rhs Real.sin Real.cos [Real.pi / 2, 1, 0, 0] 0 [1, 1, 1, 1, 10]
        = [1, -10, 0, 2] ∧
      ((1 : ℝ) * 1 * 1 * Real.sin (Real.pi / 2 - 0) - 10 * Real.sin 0
          - 1 * (-10) * Real.cos (Real.pi / 2 - 0)) / 1 = 1 ∧
      (2 : ℝ) ≠ 1 := by
  refine ⟨?_, ?_, by norm_num⟩
  · simp only [dp_rhs, List.getD, List.getD_cons_zero, List.getD_cons_succ,
      sub_zero, Real.sin_pi_div_two, Real.cos_pi_div_two, Real.sin_zero]
    norm_num
  · simp only [sub_zero, Real.sin_pi_div_two, Real.cos_pi_div_two, Real.sin_zero]
    norm_num

/-- Claim C5.  For every state and every parameter vector with positive
`m1, m2, l1, l2, g`, the small-angle evaluator `sa_dp_rhs` agrees
componentwise with the first-order linearization `lin_dp_rhs` of the exact
right-hand side at the origin (sin replaced by the identity, cos by 1,
quadratic velocity terms dropped); in particular its `omega1_dot` component
equals `g*(m2*phi2 - (m1+m2)*phi1)/(m1*l1)`, and the reuse of `omega1_dot`
inside `omega2_dot` agrees with the linearization of the second equation. -/
theorem sa_dp_rhs_eq_lin_dp_rhs (p1 w1 p2 w2 m1 m2 l1 l2 g t : ℚ)
    (hm1 : 0 < m1) (hm2 : 0 < m2) (hl1 : 0 < l1) (hl2 : 0 < l2) (hg : 0 < g) :
    sa_dp_rhs [p1, w1, p2, w2] t [m1, m2, l1, l2, g]
        = lin_dp_rhs [p1, w1, p2, w2] t [m1, m2, l1, l2, g] ∧
      (sa_dp_rhs [p1, w1, p2, w2] t [m1, m2, l1, l2, g]).getD 1 0
        = g * (m2 * p2 - (m1 + m2) * p1) / (m1 * l1) := by
  have hw1 : (g * l1) * (m2 * p2 - (m1 + m2) * p1) / (m1 * l1 * l1)
      = g * (m2 * p2 - (m1 + m2) * p1) / (m1 * l1) := by
    rw [div_eq_div_iff (by positivity) (by positivity)]
    ring
  have hden : (m1 + m2) * l1 - m2 * l1 * (1 * 1) = m1 * l1 := by ring
  have hlin : (-(m1 + m2) * g * p1 + m2 * g * p2) / ((m1 + m2) * l1 - m2 * l1 * (1 * 1))
      = g * (m2 * p2 - (m1 + m2) * p1) / (m1 * l1) := by
    rw [hden]
    congr 1
    ring
  constructor
  · simp only [sa_dp_rhs, lin_dp_rhs, List.getD_cons_zero, List.getD_cons_succ]
    rw [hw1, hlin]
    have hlast : -(g * p2 + l1 * (g * (m2 * p2 - (m1 + m2) * p1) / (m1 * l1))) / l2
        = (-(g * p2) - l1 * (g * (m2 * p2 - (m1 + m2) * p1) / (m1 * l1)) * 1) / l2 := by
      congr 1
      ring
    rw [hlast]
  · simp only [sa_dp_rhs, List.getD_cons_zero, List.getD_cons_succ]
    exact hw1

/-- Witness for claim C5: the hypotheses hold at the concrete input
`state = (1, 0, 1, 0)`, `params = (1, 1, 1, 1, 1)` and the theorem applies. -/
theorem sa_dp_rhs_eq_lin_dp_rhs_witness :
    sa_dp_rhs [(1 : ℚ), 0, 1, 0] 0 [1, 1, 1, 1, 1]
      = lin_dp_rhs [(1 : ℚ), 0, 1, 0] 0 [1, 1, 1, 1, 1] :=
  (sa_dp_rhs_eq_lin_dp_rhs 1 0 1 0 1 1 1 1 1 0
    (by norm_num) (by norm_num) (by norm_num) (by norm_num) (by norm_num)).1

/-- Claim C8.  The small-angle evaluator at the zero state returns the zero
derivative vector for any positive parameters: the origin is a fixed point
of the linearized dynamics. -/
theorem sa_dp_rhs_zero_fixed_point (m1 m2 l1 l2 g t : ℚ)
    (hm1 : 0 < m1) (hm2 : 0 < m2) (hl1 : 0 < l1) (hl2 : 0 < l2) (hg : 0 < g) :
    sa_dp_rhs [0, 0, 0, 0] t [m1, m2, l1, l2, g] = [0, 0, 0, 0] := by
  simp [sa_dp_rhs]

/-- Witness for claim C8 at the concrete parameters `(1, 1, 1, 1, 1)`. -/
theorem sa_dp_rhs_zero_fixed_point_witness :
    sa_dp_rhs [0, 0, 0, 0] 0 [(1 : ℚ), 1, 1, 1, 1] = [0, 0, 0, 0] :=
  sa_dp_rhs_zero_fixed_point 1 1 1 1 1 0
    (by norm_num) (by norm_num) (by norm_num) (by norm_num) (by norm_num)

end RhsTheorems
